import Mathlib

/-
Verification of aiohttp-apischema (generator.py / response.py) against its
natural-language specification.

The development shallowly embeds the schema generator: Python dicts become
association lists with dict-assignment semantics (replace-in-place, append
when new), exceptions become `Except String`, and the pydantic validation
engine — declared an opaque external service by the spec — is modelled from
the spec's stated contract where its behaviour decides a claim.
-/

namespace ApiSchema

/-! ### Association-list helpers with Python dict semantics -/

/-- Python dict assignment `d[k] = v`: replaces the first occurrence of `k`
in place (keeping its position), appends at the end when `k` is absent. -/
def assocSet {κ α : Type} [DecidableEq κ] : List (κ × α) → κ → α → List (κ × α)
  | [], k, v => [(k, v)]
  | (k', v') :: rest, k, v =>
      if k' = k then (k, v) :: rest else (k', v') :: assocSet rest k v

/-- Python dict lookup `d.get(k)`. -/
def alookup {κ α : Type} [DecidableEq κ] : List (κ × α) → κ → Option α
  | [], _ => none
  | (k', v) :: rest, k => if k' = k then some v else alookup rest k

/-- Python truthiness for an optional string: `None` and `""` are falsy. -/
def optTruthy : Option String → Option String
  | none => none
  | some s => if s = "" then none else some s

/-- Python truthiness for an optional list: `None` and `[]` are falsy. -/
def optTruthyList {α : Type} : Option (List α) → Option (List α)
  | none => none
  | some l => if l.isEmpty then none else some l

/-! ### String helpers

Lean's own `String.toLower`, `String.splitOn` and `String.trim` are defined
by well-founded recursion over byte positions and do not reduce
definitionally, so the string operations the source uses are reimplemented
by structural recursion over the character list. -/

/-- `str.lower()`. -/
def lowerString (s : String) : String := ⟨s.data.map Char.toLower⟩

/-- `str.upper()`. -/
def upperString (s : String) : String := ⟨s.data.map Char.toUpper⟩

/-- The ASCII whitespace stripped by Python's `str.strip()`. -/
def isSpaceChar (c : Char) : Bool :=
  c = ' ' ∨ c = '\t' ∨ c = '\n' ∨ c = '\r' ∨ c = '\x0b' ∨ c = '\x0c'

/-- `str.strip()`. -/
def trimString (s : String) : String :=
  ⟨((s.data.dropWhile isSpaceChar).reverse.dropWhile isSpaceChar).reverse⟩

/-- Splits a character list at its first newline, when it has one. -/
def splitFirstNl : List Char → Option (List Char × List Char)
  | [] => none
  | c :: rest =>
      if c = '\n' then some ([], rest)
      else (splitFirstNl rest).map fun p => (c :: p.1, p.2)

/-! ### Python type annotations

`TypeDesc` models the annotations fed to `TypeAdapter` and to the query-field
extraction loop of `SchemaGenerator._on_startup`.  `jsonOf` is pydantic's
`Json[T]`, which is an `Annotated` alias, so it counts as `Annotated` for
`get_origin`. -/

inductive LitVal where
  | str (s : String)
  | int (n : Int)
deriving DecidableEq

inductive TypeDesc where
  /-- the plain `str` class -/
  | strT
  /-- a subclass of `str` -/
  | strSub (name : String)
  /-- any other plain class (e.g. `int`, `float`, `web.Request`) -/
  | prim (name : String)
  /-- a named composite type (TypedDict / model) with its declared fields -/
  | named (name : String) (fields : List (String × TypeDesc))
  /-- `list[T]` / `tuple[T, ...]`-style generic alias -/
  | listOf (elem : TypeDesc)
  /-- pydantic `Json[T]` (an `Annotated` alias) -/
  | jsonOf (inner : TypeDesc)
  /-- `Annotated[T, ...]` -/
  | annotated (inner : TypeDesc)
  /-- `Literal[v, ...]` -/
  | literal (vals : List LitVal)
  /-- `Required[T]` -/
  | requiredW (inner : TypeDesc)
  /-- `NotRequired[T]` -/
  | notRequiredW (inner : TypeDesc)

/-- `get_args(x)[0]` can be a type or, for `Literal`, a plain value. -/
inductive Extracted where
  | ty (t : TypeDesc)
  | val (v : LitVal)

/-- `get_origin(t) in {Annotated, Literal, Required, NotRequired}`
(generator.py line 351).  `Json[T]` is `Annotated[T, Json()]`. -/
def originInSet : TypeDesc → Bool
  | .annotated _ => true
  | .jsonOf _ => true
  | .literal _ => true
  | .requiredW _ => true
  | .notRequiredW _ => true
  | _ => false

/-- `get_args(t)[0]`, as a type or literal value; `none` when it would raise. -/
def firstArg : TypeDesc → Option Extracted
  | .annotated i => some (.ty i)
  | .jsonOf i => some (.ty i)
  | .requiredW i => some (.ty i)
  | .notRequiredW i => some (.ty i)
  | .literal (v :: _) => some (.val v)
  | _ => none

def originInSetE : Extracted → Bool
  | .ty t => originInSet t
  | .val _ => false

/-- The extraction loop of `_on_startup` (lines 350-352):

    extracted_type = param_type
    while get_origin(extracted_type) in {Annotated, Literal, Required, NotRequired}:
        extracted_type = get_args(param_type)[0]

The loop body always re-reads `param_type`, so `extracted_type` is constant
after the first iteration; if its origin is still in the set the loop never
terminates.  `none` models that divergence (and a raising `get_args`). -/
def extract (p : TypeDesc) : Option Extracted :=
  if originInSet p then
    match firstArg p with
    | none => none
    | some e => if originInSetE e then none else some e
  else
    some (.ty p)

/-- `issubclass(extracted_type, str)` with the `TypeError` fallback to
`isinstance(extracted_type, str)` (lines 353-356). -/
def isStrExtracted : Extracted → Bool
  | .ty .strT => true
  | .ty (.strSub _) => true
  | .val (.str _) => true
  | _ => false

/-! ### The schema engine (pydantic), modelled from the spec

The spec treats the JSON Schema / validation engine as an opaque service:
"given a type description, produce a schema fragment", with the
deduplication contract of section 4.4: a type description that resolves to a
named composite type is emitted exactly once under `components.schemas[name]`
and every fragment that would otherwise inline it contains a reference to
that shared name; anonymous / primitive / collection types are inlined. -/

inductive Schema where
  /-- `{"$ref": "#/components/schemas/<name>"}` (the `ref_template` used by
  `_on_startup`) -/
  | ref (name : String)
  | obj (title : String) (props : List (String × Schema)) (required : List String)
  | prim (ty : String)
  | arr (items : Schema)
  /-- the schema of pydantic `Json[T]`: a JSON-encoded string whose content
  matches the inner schema -/
  | jsonStr (content : Schema)
  | lit (vals : List LitVal)

mutual

/-- Modelled from the spec: the engine's schema fragment for one type
description, threading the accumulating `components.schemas` definitions.
A named composite is emitted once into the definitions (first occurrence
wins, a deterministic choice where the spec leaves name collisions open) and
always yields a `$ref` fragment; everything else is inlined. -/
def schemaOf (t : TypeDesc) (defs : List (String × Schema)) :
    Schema × List (String × Schema) :=
  match t with
  | .strT => (.prim "string", defs)
  | .strSub _ => (.prim "string", defs)
  | .prim n => (.prim n, defs)
  | .literal vs => (.lit vs, defs)
  | .annotated i => schemaOf i defs
  | .requiredW i => schemaOf i defs
  | .notRequiredW i => schemaOf i defs
  | .listOf e =>
      let (s, d) := schemaOf e defs
      (.arr s, d)
  | .jsonOf i =>
      let (s, d) := schemaOf i defs
      (.jsonStr s, d)
  | .named n fields =>
      if (defs.map Prod.fst).contains n then (.ref n, defs)
      else
        let (props, d) := schemaOfFields fields defs
        if (d.map Prod.fst).contains n then (.ref n, d)
        else (.ref n, d ++ [(n, .obj n props (fields.map Prod.fst))])

def schemaOfFields (fs : List (String × TypeDesc)) (defs : List (String × Schema)) :
    List (String × Schema) × List (String × Schema) :=
  match fs with
  | [] => ([], defs)
  | (n, t) :: rest =>
      let (s, d1) := schemaOf t defs
      let (ss, d2) := schemaOfFields rest d1
      ((n, s) :: ss, d2)

end

/-! ### Model keys -/

/-- The discriminator of `_ModelKey`: `None` for `requestBody`,
`(fieldName, required)` for `parameter`, the status code for `response`. -/
inductive KeyDisc where
  | reqBody
  | param (name : String) (required : Bool)
  | response (code : Nat)
deriving DecidableEq

/-- `_ModelKey = (path, method, role, discriminator)`. -/
structure MKey where
  path : String
  method : String
  disc : KeyDisc
deriving DecidableEq

inductive Mode where
  | validation
  | serialization
deriving DecidableEq

/-- Modelled from the spec: `TypeAdapter.json_schemas(models, ref_template=
"#/components/schemas/{model}")` — one schema fragment per `(key, mode)`
cache entry (a dict, so a duplicate key keeps only its last fragment) plus
the shared named-component definitions. -/
def jsonSchemasAux (models : List (MKey × Mode × TypeDesc))
    (elems : List ((MKey × Mode) × Schema)) (defs : List (String × Schema)) :
    List ((MKey × Mode) × Schema) × List (String × Schema) :=
  match models with
  | [] => (elems, defs)
  | (k, m, t) :: rest =>
      let (s, defs') := schemaOf t defs
      jsonSchemasAux rest (assocSet elems (k, m) s) defs'

def jsonSchemas (models : List (MKey × Mode × TypeDesc)) :
    List ((MKey × Mode) × Schema) × List (String × Schema) :=
  jsonSchemasAux models [] []

/-! ### The validation wrapper (`make_wrapper._wrapper`, generator.py 174-191)

The runtime validators are pydantic `TypeAdapter`s; the spec treats them as
an opaque decode+validate service returning either a decoded value or a
structured validation error list.  A pydantic `ValidationError` always
carries at least one error, which the adapter records as a contract. -/

/-- A decoded JSON-ish value. -/
inductive JsonVal where
  | null
  | bool (b : Bool)
  | num (n : Int)
  | str (s : String)
  | arr (elems : List JsonVal)
  | obj (fields : List (String × JsonVal))

/-- One element of pydantic's structured error list: a location path and an
error-kind tag (plus an implementation-defined message). -/
structure PydanticError where
  loc : List String
  kind : String
  msg : String

/-- `e.json()` for a `ValidationError`: the JSON array of its errors. -/
def errorsJson (es : List PydanticError) : JsonVal :=
  .arr (es.map fun e =>
    .obj [("loc", .arr (e.loc.map .str)), ("type", .str e.kind), ("msg", .str e.msg)])

/-- A pydantic `TypeAdapter` used at request time: `validate_python` over the
raw input, together with the engine contract that a raised
`ValidationError` holds a non-empty error list. -/
structure Adapter (input : Type) where
  validate : input → Except (List PydanticError) JsonVal
  failNonempty : ∀ i es, validate i = .error es → es ≠ []

/-- The request data the wrapper reads: `await request.read()` and
`request.query`. -/
structure Request where
  body : List Nat
  query : List (String × String)

structure HttpResponse where
  status : Nat
  contentType : String
  body : JsonVal

/-- `raise web.HTTPBadRequest(text=e.json(), content_type="application/json")`
as the client-visible response. -/
def badRequestOf (es : List PydanticError) : HttpResponse :=
  { status := 400, contentType := "application/json", body := errorsJson es }

/-- The runtime models held by the closure of `_wrapper`: `ep_data["body"]`
and `ep_data["query"]` (each present only when the endpoint declared the
corresponding model). -/
structure RuntimeModels where
  body : Option (Adapter (List Nat))
  query : Option (Adapter (List (String × String)))

/-- `make_wrapper` creates a wrapper only when the endpoint data has a
`body` or `query_raw` key (generator.py 170-172). -/
def needsWrapper (hasBody hasQueryRaw : Bool) : Bool :=
  hasBody || hasQueryRaw

/-- `make_wrapper._wrapper` (generator.py 174-191): validate the body, then
the query, short-circuiting each failure into a 400 response; on success
call the wrapped handler with the decoded values (body as first positional
argument, query as the `query` keyword argument) and return its response
unchanged. -/
def wrapperRun (m : RuntimeModels)
    (handler : Option JsonVal → Option JsonVal → HttpResponse)
    (req : Request) : HttpResponse :=
  match m.body with
  | some bodyTa =>
      match bodyTa.validate req.body with
      | .error es => badRequestOf es
      | .ok decodedBody =>
          match m.query with
          | some queryTa =>
              match queryTa.validate req.query with
              | .error es => badRequestOf es
              | .ok decodedQuery => handler (some decodedBody) (some decodedQuery)
          | none => handler (some decodedBody) none
  | none =>
      match m.query with
      | some queryTa =>
          match queryTa.validate req.query with
          | .error es => badRequestOf es
          | .ok decodedQuery => handler none (some decodedQuery)
      | none => handler none none

/-! ### Handler introspection (`SchemaGenerator._save_handler`, 209-254) -/

inductive ParamKind where
  | positionalOnly
  | positionalOrKeyword
  | keywordOnly
  | varPositional
  | varKeyword
deriving DecidableEq

/-- One entry of `inspect.signature(handler).parameters`; `annotation = none`
models `inspect.Parameter.empty`. -/
structure Param where
  name : String
  annotation : Option TypeDesc
  kind : ParamKind

/-- One member of the declared return type: `APIResponse[payload]` or
`APIResponse[payload, Literal[code]]`.  `codeLit = none` covers both a
missing second argument and a second argument that is not a `Literal`
(either way `get_args(args[1])[0]` raises `IndexError`, lines 247-251). -/
structure RespAnn where
  payload : TypeDesc
  codeLit : Option Nat

/-- One field of the `query` TypedDict annotation: its annotation plus its
membership of `__required_keys__`. -/
structure QField where
  name : String
  ann : TypeDesc
  required : Bool

/-- The `query` keyword-only parameter's annotation: the TypedDict's name
and fields (`get_type_hints` order). -/
structure QueryRaw where
  tdName : String
  fields : List QField

/-- The introspectable surface of a handler: `inspect.getdoc` (none for an
absent docstring), the positional parameters, the `query` keyword-only
parameter if any, and the return annotation flattened to its union members
(a non-union annotation is a single member). -/
structure HandlerSig where
  docstring : Option String
  params : List Param
  queryAnn : Option QueryRaw
  returnAnn : List RespAnn

/-- `_EndpointData`: the registry record for one handler/method pair.
`body` holds the annotation wrapped by the code into `Json[...]`; `query`
is the runtime TypedDict adapter built during `_on_startup`. -/
structure EndpointData where
  body : Option TypeDesc
  desc : Option String
  queryRaw : Option QueryRaw
  query : Option (List (String × Bool × TypeDesc))
  resps : List (Nat × TypeDesc)
  summary : Option String
  tags : Option (List String)

/-- `docs.split("\n", maxsplit=1)`: the first line and the (unstripped)
remainder, which is absent when the docstring holds no newline. -/
def splitDoc (docs : String) : String × Option String :=
  match splitFirstNl docs.data with
  | none => (docs, none)
  | some (l, r) => (⟨l⟩, some ⟨r⟩)

/-- The body-parameter search of `_save_handler` (lines 224-232): skip a
leading `self`/`cls` or unannotated parameter, then a `request`-named or
`web.Request`-annotated parameter; `StopIteration` from either `next` means
no body parameter. -/
def isRequestAnn : Option TypeDesc → Bool
  | some (.prim n) => n = "Request"
  | _ => false

def findBodyParam (ps : List Param) : Option Param :=
  match ps with
  | [] => none
  | p1 :: rest =>
      let step1 : Option (Param × List Param) :=
        if p1.name = "self" ∨ p1.name = "cls" ∨ p1.annotation.isNone then
          match rest with
          | [] => none
          | p2 :: rest2 => some (p2, rest2)
        else some (p1, rest)
      match step1 with
      | none => none
      | some (p2, rest2) =>
          if p2.name = "request" ∨ isRequestAnn p2.annotation then
            match rest2 with
            | [] => none
            | p3 :: _ => some p3
          else some p2

/-- `SchemaGenerator._save_handler` (generator.py 209-254). -/
def saveHandler (sig : HandlerSig) (tags : List String) : EndpointData :=
  let docPart : Option String × Option String × Option (List String) :=
    match sig.docstring with
    | none => (none, none, none)
    | some docs =>
        if docs = "" then (none, none, none)
        else
          let (summary, descs) := splitDoc docs
          let desc := descs.map trimString
          ((optTruthy (some summary)),
           (optTruthy desc),
           (optTruthyList (some tags)))
  let body : Option TypeDesc :=
    match findBodyParam sig.params with
    | none => none
    | some p =>
        if p.kind = .positionalOnly ∨ p.kind = .positionalOrKeyword then
          some (.jsonOf (p.annotation.getD (.prim "empty")))
        else none
  let queryRaw : Option QueryRaw := sig.queryAnn
  let resps : List (Nat × TypeDesc) :=
    sig.returnAnn.foldl (fun acc r => assocSet acc (r.codeLit.getD 200) r.payload) []
  { body := body
    desc := docPart.2.1
    queryRaw := queryRaw
    query := none
    resps := resps
    summary := docPart.1
    tags := docPart.2.2 }

/-! ### Registration (`SchemaGenerator.api` / `SchemaGenerator.api_view`) -/

/-- `_Endpoint`: the per-identity registry record. -/
structure Endpoint where
  desc : Option String
  meths : List (Option String × EndpointData)
  summary : Option String

/-- `self._endpoints : dict[web.View | Handler, _Endpoint]`, with object
identities modelled as naturals. -/
abbrev HandlerId := Nat

abbrev Registry := List (HandlerId × Endpoint)

def regLookup (reg : Registry) (id : HandlerId) : Option Endpoint :=
  alookup reg id

/-- `SchemaGenerator.api` (generator.py 282-294): introspect the handler and
assign `self._endpoints[identity] = {"meths": {None: ep_data}}`, where the
identity is the freshly created wrapper when one was needed, the bare
handler otherwise. -/
def apiDecorate (reg : Registry) (identity : HandlerId) (sig : HandlerSig)
    (tags : List String) : Registry :=
  assocSet reg identity
    { desc := none, meths := [(none, saveHandler sig tags)], summary := none }

/-- `SchemaGenerator.api_view` (generator.py 256-280):
`self._endpoints[view] = {"meths": {}}`, the view docstring split into
summary/description, then one `_save_handler` per lower-cased HTTP method
the view defines.  The incremental dict mutations are collapsed into the
final record assigned at the view's identity. -/
def apiViewDecorate (reg : Registry) (viewId : HandlerId) (viewDoc : Option String)
    (methods : List (String × HandlerSig)) (tags : List String) : Registry :=
  let docPart : Option String × Option String :=
    match viewDoc with
    | none => (none, none)
    | some docs =>
        if docs = "" then (none, none)
        else
          let (summary, descs) := splitDoc docs
          (optTruthy (some summary), optTruthy (descs.map trimString))
  let meths : List (Option String × EndpointData) :=
    methods.foldl (fun acc (m, s) => assocSet acc (some m) (saveHandler s tags)) []
  assocSet reg viewId { desc := docPart.2, meths := meths, summary := docPart.1 }

/-! ### OpenAPI document structures -/

structure Info where
  title : String
  version : String
deriving DecidableEq

/-- One entry of an operation's `parameters` list (always query-located). -/
structure ParameterObject where
  name : String
  location : String
  required : Bool
  schema : Schema

/-- One entry of an operation's `responses` dict:
`{"description": reason, "content": {contentType: {"schema": schema}}}`. -/
structure ResponseObject where
  description : String
  contentType : String
  schema : Schema

/-- `responses` is keyed by `str(code)` in the source; since `str` is
injective on `int`, the embedding keys the dict by the code itself. -/
structure OperationObject where
  operationId : String
  summary : Option String
  description : Option String
  tags : Option (List String)
  parameters : List ParameterObject
  requestBody : Option (String × Schema)
  responses : List (Nat × ResponseObject)

structure PathObject where
  summary : Option String
  description : Option String
  ops : List (String × OperationObject)

structure OpenApi where
  openapi : String
  info : Info
  components : Option (List (String × Schema))
  paths : Option (List (String × PathObject))

/-- `SchemaGenerator.__init__` (generator.py 203-207): the default info is
`{"title": "API", "version": "1.0"}` and `_openapi` starts with neither
`paths` nor `components`. -/
def initOpenApi (info : Option Info) : OpenApi :=
  { openapi := "3.1.0"
    info := info.getD { title := "API", version := "1.0" }
    components := none
    paths := none }

/-- One entry of `app.router.routes()` as `_on_startup` reads it: the
handler's identity, `route.method`, `route.resource.canonical` and
`route.handler.__name__`. -/
structure Route where
  handlerId : HandlerId
  method : String
  path : String
  handlerName : String

/-- `OPENAPI_METHODS` (generator.py 29) / `is_openapi_method`. -/
def isOpenapiMethod (m : String) : Bool :=
  m = "get" ∨ m = "put" ∨ m = "post" ∨ m = "delete" ∨ m = "options" ∨
    m = "head" ∨ m = "patch" ∨ m = "trace"

/-- `http.HTTPStatus(code).phrase`: the CPython table of standard status
codes; `none` models the `ValueError` raised for any other code. -/
def httpStatusPhrase (code : Nat) : Option String :=
  alookup [
    (100, "Continue"), (101, "Switching Protocols"), (102, "Processing"),
    (103, "Early Hints"),
    (200, "OK"), (201, "Created"), (202, "Accepted"),
    (203, "Non-Authoritative Information"), (204, "No Content"),
    (205, "Reset Content"), (206, "Partial Content"), (207, "Multi-Status"),
    (208, "Already Reported"), (226, "IM Used"),
    (300, "Multiple Choices"), (301, "Moved Permanently"), (302, "Found"),
    (303, "See Other"), (304, "Not Modified"), (305, "Use Proxy"),
    (307, "Temporary Redirect"), (308, "Permanent Redirect"),
    (400, "Bad Request"), (401, "Unauthorized"), (402, "Payment Required"),
    (403, "Forbidden"), (404, "Not Found"), (405, "Method Not Allowed"),
    (406, "Not Acceptable"), (407, "Proxy Authentication Required"),
    (408, "Request Timeout"), (409, "Conflict"), (410, "Gone"),
    (411, "Length Required"), (412, "Precondition Failed"),
    (413, "Request Entity Too Large"), (414, "Request-URI Too Long"),
    (415, "Unsupported Media Type"), (416, "Requested Range Not Satisfiable"),
    (417, "Expectation Failed"), (418, "Im a Teapot"),
    (421, "Misdirected Request"), (422, "Unprocessable Entity"),
    (423, "Locked"), (424, "Failed Dependency"), (425, "Too Early"),
    (426, "Upgrade Required"), (428, "Precondition Required"),
    (429, "Too Many Requests"), (431, "Request Header Fields Too Large"),
    (451, "Unavailable For Legal Reasons"),
    (500, "Internal Server Error"), (501, "Not Implemented"),
    (502, "Bad Gateway"), (503, "Service Unavailable"), (504, "Gateway Timeout"),
    (505, "HTTP Version Not Supported"), (506, "Variant Also Negotiates"),
    (507, "Insufficient Storage"), (508, "Loop Detected"), (510, "Not Extended"),
    (511, "Network Authentication Required")] code

/-! ### Document assembly (`SchemaGenerator._on_startup`, generator.py 296-393) -/

abbrev ModelTriple := MKey × Mode × TypeDesc

/-- `raise ValueError("HTTP method not support by OpenAPI: {}".format(method.upper()))`
(generator.py 322). -/
def methodErrMsg (method : String) : String :=
  "HTTP method not support by OpenAPI: " ++ upperString method

/-- `method = (method or route.method).lower()` (generator.py 317). -/
def normMeth (methKey : Option String) (routeMethod : String) : String :=
  lowerString (methKey.getD routeMethod)

/-- The operation skeleton of generator.py 324-334: `operationId` from the
handler's `__name__`, plus summary/description/tags when truthy. -/
def mkOperation (opId : String) (d : EndpointData) : OperationObject :=
  { operationId := opId
    summary := optTruthy d.summary
    description := optTruthy d.desc
    tags := optTruthyList d.tags
    parameters := []
    requestBody := none
    responses := [] }

/-- The per-field annotation rule of generator.py 350-359: resolve the
declared type through the wrapper-stripping loop; a type resolving to a
plain string is used verbatim, any other type is wrapped into pydantic
`Json[...]` "to convert values to Json for runtime checking".  The error
case is the non-terminating extraction loop. -/
def fieldAnnType (t : TypeDesc) : Except String TypeDesc :=
  match extract t with
  | none => .error "query annotation extraction does not terminate"
  | some e => .ok (if isStrExtracted e then t else .jsonOf t)

/-- generator.py 345-361: one `parameter` model triple per TypedDict field,
and the field's entry of the runtime TypedDict rebuilt with the same
annotation (`Required[ann_type]` / `NotRequired[ann_type]` encoded as the
Bool). -/
def queryFields (path method : String) :
    List QField → Except String (List ModelTriple × List (String × Bool × TypeDesc))
  | [] => .ok ([], [])
  | f :: rest =>
      match fieldAnnType f.ann with
      | .error e => .error e
      | .ok a =>
          match queryFields path method rest with
          | .error e => .error e
          | .ok (ms, td) =>
              .ok ((⟨path, method, .param f.name f.required⟩, .validation, a) :: ms,
                   (f.name, f.required, a) :: td)

/-- generator.py 343-362: when `query_raw` is present, collect the parameter
model triples and store the rebuilt runtime adapter into
`endpoints["query"]`. -/
def queryStep (path method : String) (d : EndpointData) :
    Except String (EndpointData × List ModelTriple) :=
  match d.queryRaw with
  | none => .ok (d, [])
  | some qr =>
      match queryFields path method qr.fields with
      | .error e => .error e
      | .ok (ms, td) => .ok ({ d with query := some td }, ms)

/-- generator.py 338-342: the `requestBody` model triple. -/
def bodyTriples (path method : String) (d : EndpointData) : List ModelTriple :=
  match d.body with
  | none => []
  | some b => [(⟨path, method, .reqBody⟩, .validation, b)]

/-- generator.py 363-365: one `response` model triple per status code. -/
def respTriples (path method : String) (d : EndpointData) : List ModelTriple :=
  d.resps.map fun ct => (⟨path, method, .response ct.1⟩, .serialization, ct.2)

/-- `path_data[method] = operation` (generator.py 336). -/
def opsSet (pd : PathObject) (method : String) (op : OperationObject) : PathObject :=
  { pd with ops := assocSet pd.ops method op }

/-- The `for method, endpoints in ep_data["meths"].items()` loop
(generator.py 316-365): normalize the method, skip `head`, reject non-OpenAPI
methods, install the operation skeleton, and collect the body / parameter /
response model triples.  Returns the method dict after its in-place
`endpoints["query"]` updates, the updated path item, and the grown model
list. -/
def processMeths (path routeMethod opId : String) :
    List (Option String × EndpointData) → PathObject → List ModelTriple →
    Except String (List (Option String × EndpointData) × PathObject × List ModelTriple)
  | [], pd, ms => .ok ([], pd, ms)
  | (mk, d) :: rest, pd, ms =>
      if normMeth mk routeMethod = "head" then
        -- Skip these for now as they're added automatically by aiohttp.
        match processMeths path routeMethod opId rest pd ms with
        | .error e => .error e
        | .ok (rest', pd', ms') => .ok ((mk, d) :: rest', pd', ms')
      else if isOpenapiMethod (normMeth mk routeMethod) = false then
        .error (methodErrMsg (normMeth mk routeMethod))
      else
        match queryStep path (normMeth mk routeMethod) d with
        | .error e => .error e
        | .ok (d', qms) =>
            match processMeths path routeMethod opId rest
                (opsSet pd (normMeth mk routeMethod) (mkOperation opId d))
                ((ms ++ bodyTriples path (normMeth mk routeMethod) d) ++ qms
                  ++ respTriples path (normMeth mk routeMethod) d) with
            | .error e => .error e
            | .ok (rest', pd', ms') => .ok ((mk, d') :: rest', pd', ms')

/-- `paths.setdefault(path, {})` (generator.py 307). -/
def pathBase (paths : List (String × PathObject)) (p : String) : PathObject :=
  (alookup paths p).getD { summary := none, description := none, ops := [] }

/-- The path-level summary update (generator.py 309-312). -/
def pathWithSummary (pd : PathObject) (e : Endpoint) : PathObject :=
  match optTruthy e.summary with
  | some s => { pd with summary := some s }
  | none => pd

/-- The path-level summary/description updates (generator.py 309-314). -/
def pathWithDocs (pd : PathObject) (e : Endpoint) : PathObject :=
  match optTruthy e.desc with
  | some s => { pathWithSummary pd e with description := some s }
  | none => pathWithSummary pd e

/-- The route walk of generator.py 300-365: skip routes whose handler is not
registered; `paths.setdefault(path, {})`, the path-level summary/description,
then the method loop.  The endpoint record mutated in place by the method
loop is written back at the handler's identity. -/
def processRoutes : Registry → List Route → List (String × PathObject) →
    List ModelTriple →
    Except String (Registry × List (String × PathObject) × List ModelTriple)
  | reg, [], paths, ms => .ok (reg, paths, ms)
  | reg, r :: rs, paths, ms =>
      match regLookup reg r.handlerId with
      | none => processRoutes reg rs paths ms
      | some ep =>
          match processMeths r.path r.method r.handlerName ep.meths
              (pathWithDocs (pathBase paths r.path) ep) ms with
          | .error e => .error e
          | .ok (meths', pd', ms') =>
              processRoutes (assocSet reg r.handlerId { ep with meths := meths' }) rs
                (assocSet paths r.path pd') ms'

/-- Splicing one resolved fragment back into its operation
(generator.py 373-391).  A missing path or method key would be a Python
`KeyError`; by construction every key was created by the route walk. -/
def spliceOne (paths : List (String × PathObject)) (km : MKey × Mode) (s : Schema) :
    Except String (List (String × PathObject)) :=
  let k := km.1
  match alookup paths k.path with
  | none => .error "KeyError"
  | some pd =>
      match alookup pd.ops k.method with
      | none => .error "KeyError"
      | some op =>
          match k.disc with
          | .reqBody =>
              let op' := { op with requestBody := some ("application/json", s) }
              .ok (assocSet paths k.path { pd with ops := assocSet pd.ops k.method op' })
          | .param name req =>
              let op' := { op with parameters :=
                op.parameters ++ [{ name := name, location := "query", required := req, schema := s }] }
              .ok (assocSet paths k.path { pd with ops := assocSet pd.ops k.method op' })
          | .response code =>
              match httpStatusPhrase code with
              | none => .error ("ValueError: " ++ toString code ++ " is not a valid HTTPStatus")
              | some reason =>
                  let ro : ResponseObject :=
                    { description := reason, contentType := "application/json", schema := s }
                  let op' := { op with responses := assocSet op.responses code ro }
                  .ok (assocSet paths k.path { pd with ops := assocSet pd.ops k.method op' })

def splice : List (String × PathObject) → List ((MKey × Mode) × Schema) →
    Except String (List (String × PathObject))
  | paths, [] => .ok paths
  | paths, (km, s) :: rest =>
      match spliceOne paths km s with
      | .error e => .error e
      | .ok paths' => splice paths' rest

/-- `if defs: self._openapi["components"] = {"schemas": defs["$defs"]}`
(generator.py 368-369). -/
def withComponents (api : OpenApi) (defs : List (String × Schema)) : OpenApi :=
  if defs.isEmpty then api else { api with components := some defs }

/-- `if paths: self._openapi["paths"] = paths` (generator.py 392-393). -/
def withPaths (api : OpenApi) (paths : List (String × PathObject)) : OpenApi :=
  if paths.isEmpty then api else { api with paths := some paths }

/-- `SchemaGenerator._on_startup` (generator.py 296-393).  The first
component is the state of `self._openapi` when the coroutine returns or
raises: `components` is assigned right after `json_schemas` (line 368-369),
before the splice loop that can still raise on an unknown status code, and
`paths` is assigned last (392-393); a raise inside the route walk leaves
`self._openapi` untouched. -/
def onStartup (reg : Registry) (api : OpenApi) (routes : List Route) :
    OpenApi × Except String Registry :=
  match processRoutes reg routes [] [] with
  | .error e => (api, .error e)
  | .ok (reg', paths, ms) =>
      match splice paths (jsonSchemas ms).1 with
      | .error e => (withComponents api (jsonSchemas ms).2, .error e)
      | .ok paths' =>
          (withPaths (withComponents api (jsonSchemas ms).2) paths', .ok reg')

/-! ## Association-list lemmas -/

theorem alookup_assocSet_self {κ α : Type} [DecidableEq κ]
    (xs : List (κ × α)) (k : κ) (v : α) :
    alookup (assocSet xs k v) k = some v := by
  induction xs with
  | nil => simp [assocSet, alookup]
  | cons hd tl ih =>
      obtain ⟨k', v'⟩ := hd
      by_cases h : k' = k <;> simp [assocSet, alookup, h, ih]

theorem alookup_assocSet_ne {κ α : Type} [DecidableEq κ]
    (xs : List (κ × α)) (k k' : κ) (v : α) (h : k' ≠ k) :
    alookup (assocSet xs k v) k' = alookup xs k' := by
  induction xs with
  | nil => simp [assocSet, alookup, Ne.symm h]
  | cons hd tl ih =>
      obtain ⟨k0, v0⟩ := hd
      by_cases h0 : k0 = k
      · subst h0
        simp [assocSet, alookup, Ne.symm h]
      · by_cases h1 : k0 = k' <;> simp [assocSet, alookup, h0, h1, h, ih]

theorem mem_assocSet {κ α : Type} [DecidableEq κ]
    {xs : List (κ × α)} {k : κ} {v : α} {x : κ × α} :
    x ∈ assocSet xs k v → x = (k, v) ∨ x ∈ xs := by
  induction xs with
  | nil =>
      intro h
      simpa [assocSet] using h
  | cons hd tl ih =>
      intro h
      obtain ⟨k', v'⟩ := hd
      by_cases h0 : k' = k
      · simp only [assocSet, if_pos h0, List.mem_cons] at h
        rcases h with h | h
        · exact Or.inl h
        · exact Or.inr (List.mem_cons_of_mem _ h)
      · simp only [assocSet, if_neg h0, List.mem_cons] at h
        rcases h with h | h
        · exact Or.inr (by simp [h])
        · rcases ih h with h1 | h1
          · exact Or.inl h1
          · exact Or.inr (List.mem_cons_of_mem _ h1)

theorem alookup_mem {κ α : Type} [DecidableEq κ]
    {xs : List (κ × α)} {k : κ} {v : α} :
    alookup xs k = some v → (k, v) ∈ xs := by
  induction xs with
  | nil =>
      intro h
      simp [alookup] at h
  | cons hd tl ih =>
      intro h
      obtain ⟨k', v'⟩ := hd
      by_cases h0 : k' = k
      · subst h0
        simp only [alookup, if_true, eq_self_iff_true, Option.some.injEq] at h
        simp [h]
      · simp only [alookup, if_neg h0] at h
        exact List.mem_cons_of_mem _ (ih h)

theorem alookup_isSome_assocSet {κ α : Type} [DecidableEq κ]
    (xs : List (κ × α)) (k k' : κ) (v : α)
    (h : (alookup xs k').isSome) : (alookup (assocSet xs k v) k').isSome := by
  by_cases hk : k' = k
  · subst hk
    simp [alookup_assocSet_self]
  · rwa [alookup_assocSet_ne _ _ _ _ hk]

theorem assocSet_self_of_alookup {κ α : Type} [DecidableEq κ]
    {xs : List (κ × α)} {k : κ} {v : α} :
    alookup xs k = some v → assocSet xs k v = xs := by
  induction xs with
  | nil =>
      intro h
      simp [alookup] at h
  | cons hd tl ih =>
      intro h
      obtain ⟨k', v'⟩ := hd
      by_cases h0 : k' = k
      · subst h0
        simp only [alookup, if_true, eq_self_iff_true, Option.some.injEq] at h
        simp [assocSet, h]
      · simp only [alookup, if_neg h0] at h
        simp [assocSet, h0, ih h]

theorem alookup_map_value {κ α β : Type} [DecidableEq κ]
    (f : α → β) (xs : List (κ × α)) (k : κ) :
    alookup (xs.map fun p => (p.1, f p.2)) k = (alookup xs k).map f := by
  induction xs with
  | nil => simp [alookup]
  | cons hd tl ih =>
      obtain ⟨k', v'⟩ := hd
      by_cases h0 : k' = k <;> simp [alookup, h0, ih]

theorem assocSet_map_value {κ α β : Type} [DecidableEq κ]
    (f : α → β) (xs : List (κ × α)) (k : κ) (v : α) :
    (assocSet xs k v).map (fun p => (p.1, f p.2)) =
      assocSet (xs.map fun p => (p.1, f p.2)) k (f v) := by
  induction xs with
  | nil => simp [assocSet]
  | cons hd tl ih =>
      obtain ⟨k', v'⟩ := hd
      by_cases h0 : k' = k <;> simp [assocSet, h0, ih]

/-! ## C1: body validation failure short-circuits into a 400 response -/

/-- C1: for an endpoint whose data carries a body model, a request payload
the body adapter rejects makes `_wrapper` produce an HTTP 400 response with
content type `application/json` whose body is the engine's structured error
list, which is non-empty; the response does not depend on the wrapped
handler, i.e. the handler is never invoked on that request. -/
theorem c1_invalid_body_yields_400 (m : RuntimeModels)
    (handler : Option JsonVal → Option JsonVal → HttpResponse) (req : Request)
    (ta : Adapter (List Nat)) (es : List PydanticError)
    (hbody : m.body = some ta) (hfail : ta.validate req.body = .error es) :
    wrapperRun m handler req = badRequestOf es ∧
    (wrapperRun m handler req).status = 400 ∧
    (wrapperRun m handler req).contentType = "application/json" ∧
    (wrapperRun m handler req).body = errorsJson es ∧
    es ≠ [] ∧
    (∀ handler2, wrapperRun m handler2 req = badRequestOf es) := by
  have hrun : ∀ h2 : Option JsonVal → Option JsonVal → HttpResponse,
      wrapperRun m h2 req = badRequestOf es := by
    intro h2
    simp [wrapperRun, hbody, hfail]
  refine ⟨hrun handler, ?_, ?_, ?_, ta.failNonempty _ _ hfail, hrun⟩ <;>
    rw [hrun handler] <;> rfl

def c1Adapter : Adapter (List Nat) :=
  { validate := fun _ =>
      .error [{ loc := ["x"], kind := "int_type", msg := "Input should be a valid integer" }]
    failNonempty := by
      intro i es h
      injection h with h1
      subst h1
      exact List.cons_ne_nil _ _ }

def c1Models : RuntimeModels := { body := some c1Adapter, query := none }

def c1Errs : List PydanticError :=
  [{ loc := ["x"], kind := "int_type", msg := "Input should be a valid integer" }]

def c1Handler : Option JsonVal → Option JsonVal → HttpResponse :=
  fun _ _ => { status := 200, contentType := "application/json", body := .null }

theorem c1_invalid_body_yields_400_witness :
    wrapperRun c1Models c1Handler ⟨[0], []⟩ = badRequestOf c1Errs ∧
    (wrapperRun c1Models c1Handler ⟨[0], []⟩).status = 400 ∧
    (wrapperRun c1Models c1Handler ⟨[0], []⟩).contentType = "application/json" ∧
    (wrapperRun c1Models c1Handler ⟨[0], []⟩).body = errorsJson c1Errs ∧
    c1Errs ≠ [] ∧
    (∀ handler2, wrapperRun c1Models handler2 ⟨[0], []⟩ = badRequestOf c1Errs) :=
  c1_invalid_body_yields_400 c1Models c1Handler ⟨[0], []⟩ c1Adapter c1Errs rfl rfl

/-! ## C2: re-registration under an existing identity -/

def c2Params : List Param :=
  [{ name := "request", annotation := some (.prim "Request"), kind := .positionalOrKeyword }]

def c2SigA : HandlerSig :=
  { docstring := some "First handler.", params := c2Params, queryAnn := none
    returnAnn := [{ payload := .prim "int", codeLit := some 200 }] }

def c2SigB : HandlerSig :=
  { docstring := some "Second handler.", params := c2Params, queryAnn := none
    returnAnn := [{ payload := .strT, codeLit := some 201 }] }

def c2Reg1 : Registry := apiDecorate [] 5 c2SigA []

def c2Reg2 : Registry := apiDecorate c2Reg1 5 c2SigB []

def c2EpA : Endpoint :=
  { desc := none, meths := [(none, saveHandler c2SigA [])], summary := none }

def c2EpB : Endpoint :=
  { desc := none, meths := [(none, saveHandler c2SigB [])], summary := none }

def c2Route : Route := { handlerId := 5, method := "GET", path := "/a", handlerName := "handler" }

/-- C2 counterexample: registering a second descriptor under identity 5,
already present in the registry, does not fail: the registry simply holds
the second descriptor afterwards (the first is gone), and document assembly
over the resulting registry completes without error — nothing surfaces at
startup. -/
theorem c2_counterexample_silent_overwrite :
    regLookup c2Reg1 5 = some c2EpA ∧
    regLookup c2Reg2 5 = some c2EpB ∧
    regLookup c2Reg2 5 ≠ some c2EpA ∧
    (onStartup c2Reg2 (initOpenApi none) [c2Route]).2 = .ok c2Reg2 := by
  refine ⟨rfl, rfl, ?_, rfl⟩
  intro h
  have h1 : c2EpB = c2EpA := by
    have h0 : (some c2EpB : Option Endpoint) = some c2EpA := h
    exact Option.some.inj h0
  have h2 := congrArg (fun e => e.meths.map fun md => md.2.summary) h1
  exact absurd h2 (by decide)

/-- C2 amended: registering a second endpoint descriptor under an endpoint
identity that is already present in the registry silently replaces the
earlier descriptor — the registry afterwards equals (at that identity) what
the second registration alone would have stored, and no error is raised at
registration or at startup.  This holds for the plain-handler decorator and
for the view decorator alike. -/
theorem c2_amended_last_registration_wins (reg : Registry) (id : HandlerId)
    (s1 s2 : HandlerSig) (t1 t2 : List String)
    (d1 d2 : Option String) (m1 m2 : List (String × HandlerSig)) :
    regLookup (apiDecorate (apiDecorate reg id s1 t1) id s2 t2) id =
      regLookup (apiDecorate reg id s2 t2) id ∧
    regLookup (apiViewDecorate (apiViewDecorate reg id d1 m1 t1) id d2 m2 t2) id =
      regLookup (apiViewDecorate reg id d2 m2 t2) id := by
  constructor <;>
    simp [apiDecorate, apiViewDecorate, regLookup, alookup_assocSet_self]

/-! ## C6: a response member without a status literal is recorded at 200 -/

theorem foldl_resps_lookup_skip (post : List RespAnn) (acc : List (Nat × TypeDesc)) (k : Nat)
    (h : ∀ r2 ∈ post, r2.codeLit.getD 200 ≠ k) :
    alookup (post.foldl (fun a r2 => assocSet a (r2.codeLit.getD 200) r2.payload) acc) k
      = alookup acc k := by
  induction post generalizing acc with
  | nil => rfl
  | cons hd tl ih =>
      rw [List.foldl_cons, ih _ fun r2 hr2 => h r2 (List.mem_cons_of_mem _ hr2)]
      exact alookup_assocSet_ne _ _ _ _ (Ne.symm (h hd (List.mem_cons_self _ _)))

/-- C6: a member of the declared return type that carries a payload but no
status-code literal is recorded in the `resps` mapping under status code 200
by `_save_handler` (the `IndexError → 200` default of generator.py 247-251);
stated for a member not later overwritten by another member that also
resolves to code 200. -/
theorem c6_no_literal_defaults_to_200 (sig : HandlerSig) (tags : List String)
    (pre post : List RespAnn) (r : RespAnn)
    (hsplit : sig.returnAnn = pre ++ r :: post)
    (hnone : r.codeLit = none)
    (hlater : ∀ r2 ∈ post, r2.codeLit.getD 200 ≠ 200) :
    alookup (saveHandler sig tags).resps 200 = some r.payload := by
  have hresps : (saveHandler sig tags).resps =
      sig.returnAnn.foldl (fun a r2 => assocSet a (r2.codeLit.getD 200) r2.payload) [] := rfl
  rw [hresps, hsplit, List.foldl_append, List.foldl_cons,
    foldl_resps_lookup_skip post _ 200 hlater, hnone]
  exact alookup_assocSet_self _ _ _

def c6Sig : HandlerSig :=
  { docstring := none, params := c2Params, queryAnn := none
    returnAnn := [{ payload := .prim "int", codeLit := none }] }

theorem c6_no_literal_defaults_to_200_witness :
    alookup (saveHandler c6Sig []).resps 200 = some (.prim "int") :=
  c6_no_literal_defaults_to_200 c6Sig [] [] [] { payload := .prim "int", codeLit := none }
    rfl rfl (by simp)

/-! ## C7: the plain-string-vs-JSON rule for structured query fields -/

/-- C7: for every structured-query field processed by `_on_startup`, the
annotation pushed as the field's `parameter` schema model and the annotation
rebuilt into the runtime query `TypedDict` are one and the same; that shared
annotation is the field's declared type used verbatim (no `Json[...]`
wrapper, hence no JSON-decoding step added) exactly when the resolved
declared type is a plain string, and is `Json[declared type]` (a JSON-encoded
string that must decode to the declared type) for every other type. -/
theorem c7_query_field_annotation_rule (path method : String) (fs : List QField)
    (ms : List ModelTriple) (td : List (String × Bool × TypeDesc))
    (hok : queryFields path method fs = .ok (ms, td))
    (f : QField) (hf : f ∈ fs) :
    ∃ e a, extract f.ann = some e ∧
      (⟨path, method, .param f.name f.required⟩, Mode.validation, a) ∈ ms ∧
      (f.name, f.required, a) ∈ td ∧
      (isStrExtracted e = true → a = f.ann) ∧
      (isStrExtracted e = false → a = .jsonOf f.ann) := by
  induction fs generalizing ms td with
  | nil => cases hf
  | cons hd tl ih =>
      rw [queryFields] at hok
      cases hft : fieldAnnType hd.ann with
      | error e => rw [hft] at hok; cases hok
      | ok a =>
          rw [hft] at hok
          cases hqf : queryFields path method tl with
          | error e => rw [hqf] at hok; cases hok
          | ok p =>
              obtain ⟨ms', td'⟩ := p
              rw [hqf] at hok
              have hms : ms = (⟨path, method, .param hd.name hd.required⟩,
                  Mode.validation, a) :: ms' := by
                cases hok; rfl
              have htd : td = (hd.name, hd.required, a) :: td' := by
                cases hok; rfl
              rcases List.mem_cons.mp hf with hf1 | hf1
              · subst hf1
                rw [fieldAnnType] at hft
                cases hx : extract f.ann with
                | none => rw [hx] at hft; cases hft
                | some e =>
                    rw [hx] at hft
                    have ha : a = if isStrExtracted e then f.ann else .jsonOf f.ann := by
                      cases hft; rfl
                    refine ⟨e, a, rfl, ?_, ?_, ?_, ?_⟩
                    · rw [hms]; exact List.mem_cons_self _ _
                    · rw [htd]; exact List.mem_cons_self _ _
                    · intro hstr; rw [ha, if_pos hstr]
                    · intro hstr; rw [ha, hstr]; rfl
              · obtain ⟨e, a2, hx, hm1, hm2, hs1, hs2⟩ := ih ms' td' hqf hf1
                refine ⟨e, a2, hx, ?_, ?_, hs1, hs2⟩
                · rw [hms]; exact List.mem_cons_of_mem _ hm1
                · rw [htd]; exact List.mem_cons_of_mem _ hm2

def c7Fields : List QField :=
  [{ name := "spam", ann := .literal [.str "eggz"], required := false },
   { name := "foo", ann := .prim "int", required := true }]

def c7Models : List ModelTriple :=
  [(⟨"/foo", "get", .param "spam" false⟩, .validation, .literal [.str "eggz"]),
   (⟨"/foo", "get", .param "foo" true⟩, .validation, .jsonOf (.prim "int"))]

def c7Td : List (String × Bool × TypeDesc) :=
  [("spam", false, .literal [.str "eggz"]), ("foo", true, .jsonOf (.prim "int"))]

theorem c7_query_field_annotation_rule_witness :
    ∃ e a, extract (TypeDesc.literal [.str "eggz"]) = some e ∧
      (⟨"/foo", "get", .param "spam" false⟩, Mode.validation, a) ∈ c7Models ∧
      ("spam", false, a) ∈ c7Td ∧
      (isStrExtracted e = true → a = .literal [.str "eggz"]) ∧
      (isStrExtracted e = false → a = .jsonOf (.literal [.str "eggz"])) :=
  c7_query_field_annotation_rule "/foo" "get" c7Fields c7Models c7Td rfl
    { name := "spam", ann := .literal [.str "eggz"], required := false }
    (List.mem_cons_self _ _)

/-! ## C9: tags are recorded only when a docstring is present -/

/-- C9: a handler registered with a non-empty tag list but whose
`inspect.getdoc` is falsy gets no `tags` key in its endpoint data (the
`if tags:` assignment sits inside `if docs:`, generator.py 212-221), and the
operation object built for it therefore carries no `tags` entry. -/
theorem c9_tags_dropped_without_docstring (sig : HandlerSig) (tags : List String)
    (opId : String)
    (hdoc : optTruthy sig.docstring = none) (_htags : tags ≠ []) :
    (saveHandler sig tags).tags = none ∧
    (mkOperation opId (saveHandler sig tags)).tags = none := by
  have h1 : (saveHandler sig tags).tags = none := by
    unfold saveHandler
    cases hd : sig.docstring with
    | none => rfl
    | some s =>
        rw [hd] at hdoc
        by_cases hs : s = ""
        · subst hs; rfl
        · simp [optTruthy, hs] at hdoc
  exact ⟨h1, by simp [mkOperation, h1, optTruthyList]⟩

def c9Sig : HandlerSig :=
  { docstring := none, params := c2Params, queryAnn := none
    returnAnn := [{ payload := .prim "int", codeLit := none }] }

theorem c9_tags_dropped_without_docstring_witness :
    (saveHandler c9Sig ["a_tag"]).tags = none ∧
    (mkOperation "get_number" (saveHandler c9Sig ["a_tag"])).tags = none :=
  c9_tags_dropped_without_docstring c9Sig ["a_tag"] "get_number" rfl (by simp)

/-! ## Query-erasure machinery

`_on_startup` writes `endpoints["query"]` but never reads it; everything it
emits depends only on the endpoint data with the `query` field erased.  The
lemmas below make that precise and are shared by the assembly claims. -/

def eraseD (d : EndpointData) : EndpointData := { d with query := none }

def eraseMeths (ms : List (Option String × EndpointData)) :
    List (Option String × EndpointData) :=
  ms.map fun md => (md.1, eraseD md.2)

def eraseE (e : Endpoint) : Endpoint := { e with meths := eraseMeths e.meths }

def eraseR (reg : Registry) : Registry := reg.map fun ie => (ie.1, eraseE ie.2)

theorem eraseD_fields {d1 d2 : EndpointData} (h : eraseD d1 = eraseD d2) :
    d1.body = d2.body ∧ d1.desc = d2.desc ∧ d1.queryRaw = d2.queryRaw ∧
    d1.resps = d2.resps ∧ d1.summary = d2.summary ∧ d1.tags = d2.tags := by
  cases d1
  cases d2
  simp only [eraseD] at h
  injection h with h1 h2 h3 h4 h5 h6 h7
  exact ⟨h1, h2, h3, h5, h6, h7⟩

theorem eraseD_set_query (d : EndpointData) (q : Option (List (String × Bool × TypeDesc))) :
    eraseD { d with query := q } = eraseD d := by
  cases d
  rfl

theorem eraseE_fields {e1 e2 : Endpoint} (h : eraseE e1 = eraseE e2) :
    e1.desc = e2.desc ∧ eraseMeths e1.meths = eraseMeths e2.meths ∧
    e1.summary = e2.summary := by
  cases e1
  cases e2
  simp only [eraseE, Endpoint.mk.injEq] at h
  exact h

theorem eraseR_assocSet (reg : Registry) (id : HandlerId) (e : Endpoint) :
    eraseR (assocSet reg id e) = assocSet (eraseR reg) id (eraseE e) :=
  assocSet_map_value eraseE reg id e

theorem regLookup_eraseR (reg : Registry) (id : HandlerId) :
    alookup (eraseR reg) id = (regLookup reg id).map eraseE :=
  alookup_map_value eraseE reg id

/-- The in-place `endpoints["query"]` update one method entry receives. -/
def updD (path method : String) (d : EndpointData) : EndpointData :=
  match queryStep path method d with
  | .ok p => p.1
  | .error _ => d

def updEntry (path rm : String) (md : Option String × EndpointData) :
    Option String × EndpointData :=
  if normMeth md.1 rm = "head" then md
  else (md.1, updD path (normMeth md.1 rm) md.2)

theorem queryStep_ok_shape {p m : String} {d d' : EndpointData}
    {qms : List ModelTriple} (h : queryStep p m d = .ok (d', qms)) :
    ∃ q, d' = { d with query := q } := by
  cases d with
  | mk b de qr q r su t =>
      cases qr with
      | none =>
          simp only [queryStep] at h
          cases h
          exact ⟨q, rfl⟩
      | some qrv =>
          simp only [queryStep] at h
          cases hqf : queryFields p m qrv.fields with
          | error e => rw [hqf] at h; cases h
          | ok pr =>
              obtain ⟨ms, td⟩ := pr
              rw [hqf] at h
              cases h
              exact ⟨some td, rfl⟩

theorem eraseD_updD (p m : String) (d : EndpointData) :
    eraseD (updD p m d) = eraseD d := by
  rw [updD]
  cases hq : queryStep p m d with
  | error e => rfl
  | ok pr =>
      obtain ⟨d', qms⟩ := pr
      obtain ⟨q, hq2⟩ := queryStep_ok_shape hq
      simp [hq2, eraseD_set_query]

theorem eraseMeths_map_updEntry (path rm : String)
    (meths : List (Option String × EndpointData)) :
    eraseMeths (meths.map (updEntry path rm)) = eraseMeths meths := by
  induction meths with
  | nil => rfl
  | cons hd tl ih =>
      obtain ⟨mk, d⟩ := hd
      simp only [List.map_cons, eraseMeths] at ih ⊢
      rw [ih]
      by_cases hh : normMeth mk rm = "head"
      · simp [updEntry, hh]
      · simp [updEntry, hh, eraseD_updD]

theorem queryStep_congr (p m : String) {d1 d2 : EndpointData}
    (h : eraseD d1 = eraseD d2) :
    match queryStep p m d1, queryStep p m d2 with
    | .error e1, .error e2 => e1 = e2
    | .ok (d1', q1), .ok (d2', q2) => eraseD d1' = eraseD d2' ∧ q1 = q2
    | _, _ => False := by
  obtain ⟨b1, de1, qr1, q1, r1, su1, t1⟩ := d1
  obtain ⟨b2, de2, qr2, q2, r2, su2, t2⟩ := d2
  simp only [eraseD] at h
  injection h with h1 h2 h3 h4 h5 h6 h7
  subst h1
  subst h2
  subst h3
  subst h5
  subst h6
  subst h7
  cases qr1 with
  | none =>
      simp [queryStep, eraseD]
  | some qrv =>
      simp only [queryStep]
      cases hqf : queryFields p m qrv.fields with
      | error e => simp [hqf]
      | ok pr =>
          obtain ⟨ms, td⟩ := pr
          simp [hqf, eraseD]

theorem mkOperation_congr (opId : String) {d1 d2 : EndpointData}
    (h : eraseD d1 = eraseD d2) :
    mkOperation opId d1 = mkOperation opId d2 := by
  obtain ⟨-, hdesc, -, -, hsum, htags⟩ := eraseD_fields h
  simp [mkOperation, hdesc, hsum, htags]

theorem bodyTriples_congr (p m : String) {d1 d2 : EndpointData}
    (h : eraseD d1 = eraseD d2) :
    bodyTriples p m d1 = bodyTriples p m d2 := by
  obtain ⟨hb, -, -, -, -, -⟩ := eraseD_fields h
  simp [bodyTriples, hb]

theorem respTriples_congr (p m : String) {d1 d2 : EndpointData}
    (h : eraseD d1 = eraseD d2) :
    respTriples p m d1 = respTriples p m d2 := by
  obtain ⟨-, -, -, hr, -, -⟩ := eraseD_fields h
  simp [respTriples, hr]

theorem processMeths_ok_meths (path rm opId : String) :
    ∀ (meths : List (Option String × EndpointData)) (pd : PathObject)
      (ms : List ModelTriple)
      (out : List (Option String × EndpointData) × PathObject × List ModelTriple),
    processMeths path rm opId meths pd ms = .ok out →
    out.1 = meths.map (updEntry path rm) := by
  intro meths
  induction meths with
  | nil =>
      intro pd ms out h
      cases h
      rfl
  | cons hd tl ih =>
      intro pd ms out h
      obtain ⟨mk, d⟩ := hd
      by_cases hh : normMeth mk rm = "head"
      · rw [processMeths, if_pos hh] at h
        cases hrec : processMeths path rm opId tl pd ms with
        | error e => rw [hrec] at h; cases h
        | ok out2 =>
            obtain ⟨r2, pd2, ms2⟩ := out2
            rw [hrec] at h
            cases h
            have hr : r2 = tl.map (updEntry path rm) := ih _ _ _ hrec
            simp [updEntry, hh, hr]
      · by_cases hv : isOpenapiMethod (normMeth mk rm) = false
        · rw [processMeths, if_neg hh, if_pos hv] at h
          cases h
        · rw [processMeths, if_neg hh, if_neg hv] at h
          cases hq : queryStep path (normMeth mk rm) d with
          | error e => rw [hq] at h; cases h
          | ok pr =>
              obtain ⟨d', qms⟩ := pr
              rw [hq] at h
              dsimp only at h
              cases hrec : processMeths path rm opId tl
                  (opsSet pd (normMeth mk rm) (mkOperation opId d))
                  ((ms ++ bodyTriples path (normMeth mk rm) d) ++ qms
                    ++ respTriples path (normMeth mk rm) d) with
              | error e => rw [hrec] at h; cases h
              | ok out2 =>
                  obtain ⟨r2, pd2, ms2⟩ := out2
                  rw [hrec] at h
                  cases h
                  have hupd : updD path (normMeth mk rm) d = d' := by
                    rw [updD, hq]
                  have hr : r2 = tl.map (updEntry path rm) := ih _ _ _ hrec
                  simp [updEntry, hh, hupd, hr]

theorem processMeths_congr (path rm opId : String) :
    ∀ (m1 m2 : List (Option String × EndpointData)) (pd : PathObject)
      (ms : List ModelTriple),
    eraseMeths m1 = eraseMeths m2 →
    match processMeths path rm opId m1 pd ms, processMeths path rm opId m2 pd ms with
    | .error e1, .error e2 => e1 = e2
    | .ok (r1, pd1, ms1), .ok (r2, pd2, ms2) =>
        eraseMeths r1 = eraseMeths r2 ∧ pd1 = pd2 ∧ ms1 = ms2
    | _, _ => False := by
  intro m1
  induction m1 with
  | nil =>
      intro m2 pd ms h
      cases m2 with
      | nil => exact ⟨rfl, rfl, rfl⟩
      | cons hd2 t2 => simp [eraseMeths] at h
  | cons hd1 t1 ih =>
      intro m2 pd ms h
      obtain ⟨mk1, d1⟩ := hd1
      cases m2 with
      | nil => simp [eraseMeths] at h
      | cons hd2 t2 =>
          obtain ⟨mk2, d2⟩ := hd2
          simp only [eraseMeths, List.map_cons, List.cons.injEq, Prod.mk.injEq] at h
          obtain ⟨⟨hmk, hed⟩, htl⟩ := h
          subst hmk
          have htl2 : eraseMeths t1 = eraseMeths t2 := htl
          by_cases hh : normMeth mk1 rm = "head"
          · rw [processMeths, processMeths, if_pos hh, if_pos hh]
            have ihm := ih t2 pd ms htl2
            cases hrec1 : processMeths path rm opId t1 pd ms with
            | error e1 =>
                cases hrec2 : processMeths path rm opId t2 pd ms with
                | error e2 =>
                    rw [hrec1, hrec2] at ihm
                    exact (ihm : e1 = e2)
                | ok out2 =>
                    rw [hrec1, hrec2] at ihm
                    obtain ⟨r2, pd2, ms2⟩ := out2
                    exact (ihm : False).elim
            | ok out1 =>
                cases hrec2 : processMeths path rm opId t2 pd ms with
                | error e2 =>
                    rw [hrec1, hrec2] at ihm
                    obtain ⟨r1, pd1, ms1⟩ := out1
                    exact (ihm : False).elim
                | ok out2 =>
                    obtain ⟨r1, pd1, ms1⟩ := out1
                    obtain ⟨r2, pd2, ms2⟩ := out2
                    rw [hrec1, hrec2] at ihm
                    have ihm2 : eraseMeths r1 = eraseMeths r2 ∧ pd1 = pd2 ∧ ms1 = ms2 := ihm
                    obtain ⟨hr, hpd, hms⟩ := ihm2
                    refine ⟨?_, hpd, hms⟩
                    show (mk1, eraseD d1) :: eraseMeths r1 = (mk1, eraseD d2) :: eraseMeths r2
                    rw [hed, hr]
          · by_cases hv : isOpenapiMethod (normMeth mk1 rm) = false
            · rw [processMeths, processMeths, if_neg hh, if_neg hh, if_pos hv, if_pos hv]
            · rw [processMeths, processMeths, if_neg hh, if_neg hh, if_neg hv, if_neg hv]
              have hqc := queryStep_congr path (normMeth mk1 rm) hed
              cases hq1 : queryStep path (normMeth mk1 rm) d1 with
              | error e1 =>
                  cases hq2 : queryStep path (normMeth mk1 rm) d2 with
                  | error e2 =>
                      rw [hq1, hq2] at hqc
                      dsimp only
                      exact (hqc : e1 = e2)
                  | ok pr2 =>
                      rw [hq1, hq2] at hqc
                      obtain ⟨d2a, qms2⟩ := pr2
                      exact (hqc : False).elim
              | ok pr1 =>
                  cases hq2 : queryStep path (normMeth mk1 rm) d2 with
                  | error e2 =>
                      rw [hq1, hq2] at hqc
                      obtain ⟨d1a, qms1⟩ := pr1
                      exact (hqc : False).elim
                  | ok pr2 =>
                      obtain ⟨d1a, qms1⟩ := pr1
                      obtain ⟨d2a, qms2⟩ := pr2
                      rw [hq1, hq2] at hqc
                      have hqc2 : eraseD d1a = eraseD d2a ∧ qms1 = qms2 := hqc
                      obtain ⟨hed2, hqms⟩ := hqc2
                      have hop : mkOperation opId d1 = mkOperation opId d2 :=
                        mkOperation_congr opId hed
                      have hbt : bodyTriples path (normMeth mk1 rm) d1 =
                          bodyTriples path (normMeth mk1 rm) d2 :=
                        bodyTriples_congr _ _ hed
                      have hrt : respTriples path (normMeth mk1 rm) d1 =
                          respTriples path (normMeth mk1 rm) d2 :=
                        respTriples_congr _ _ hed
                      dsimp only
                      rw [← hop, ← hbt, ← hrt, ← hqms]
                      have ihm := ih t2
                        (opsSet pd (normMeth mk1 rm) (mkOperation opId d1))
                        ((ms ++ bodyTriples path (normMeth mk1 rm) d1) ++ qms1
                          ++ respTriples path (normMeth mk1 rm) d1) htl2
                      cases hrec1 : processMeths path rm opId t1
                          (opsSet pd (normMeth mk1 rm) (mkOperation opId d1))
                          ((ms ++ bodyTriples path (normMeth mk1 rm) d1) ++ qms1
                            ++ respTriples path (normMeth mk1 rm) d1) with
                      | error e1 =>
                          cases hrec2 : processMeths path rm opId t2
                              (opsSet pd (normMeth mk1 rm) (mkOperation opId d1))
                              ((ms ++ bodyTriples path (normMeth mk1 rm) d1) ++ qms1
                                ++ respTriples path (normMeth mk1 rm) d1) with
                          | error e2 =>
                              rw [hrec1, hrec2] at ihm
                              dsimp only
                              exact (ihm : e1 = e2)
                          | ok out2 =>
                              rw [hrec1, hrec2] at ihm
                              obtain ⟨r2, pd2, ms2⟩ := out2
                              exact (ihm : False).elim
                      | ok out1 =>
                          cases hrec2 : processMeths path rm opId t2
                              (opsSet pd (normMeth mk1 rm) (mkOperation opId d1))
                              ((ms ++ bodyTriples path (normMeth mk1 rm) d1) ++ qms1
                                ++ respTriples path (normMeth mk1 rm) d1) with
                          | error e2 =>
                              rw [hrec1, hrec2] at ihm
                              obtain ⟨r1, pd1, ms1⟩ := out1
                              exact (ihm : False).elim
                          | ok out2 =>
                              obtain ⟨r1, pd1, ms1⟩ := out1
                              obtain ⟨r2, pd2, ms2⟩ := out2
                              rw [hrec1, hrec2] at ihm
                              have ihm2 : eraseMeths r1 = eraseMeths r2 ∧
                                  pd1 = pd2 ∧ ms1 = ms2 := ihm
                              obtain ⟨hr, hpd, hms⟩ := ihm2
                              refine ⟨?_, hpd, hms⟩
                              show (mk1, eraseD d1a) :: eraseMeths r1 =
                                (mk1, eraseD d2a) :: eraseMeths r2
                              rw [hed2, hr]

theorem eraseE_set_meths (e : Endpoint) (M : List (Option String × EndpointData)) :
    eraseE { e with meths := M } =
      { desc := e.desc, meths := eraseMeths M, summary := e.summary } := by
  cases e
  rfl

theorem eraseR_step (reg : Registry) (id : HandlerId) (ep : Endpoint)
    (meths' : List (Option String × EndpointData))
    (hlook : regLookup reg id = some ep)
    (hm : eraseMeths meths' = eraseMeths ep.meths) :
    eraseR (assocSet reg id { ep with meths := meths' }) = eraseR reg := by
  rw [eraseR_assocSet]
  have h1 : eraseE { ep with meths := meths' } = eraseE ep := by
    rw [eraseE_set_meths, hm]
    cases ep
    rfl
  rw [h1]
  apply assocSet_self_of_alookup
  rw [regLookup_eraseR, hlook]
  rfl

theorem processRoutes_ok_eraseR :
    ∀ (routes : List Route) (reg : Registry) (paths : List (String × PathObject))
      (ms : List ModelTriple)
      (out : Registry × List (String × PathObject) × List ModelTriple),
    processRoutes reg routes paths ms = .ok out → eraseR out.1 = eraseR reg := by
  intro routes
  induction routes with
  | nil =>
      intro reg paths ms out h
      cases h
      rfl
  | cons r rs ih =>
      intro reg paths ms out h
      rw [processRoutes] at h
      cases hlook : regLookup reg r.handlerId with
      | none =>
          rw [hlook] at h
          exact ih _ _ _ _ h
      | some ep =>
          rw [hlook] at h
          dsimp only at h
          cases hpm : processMeths r.path r.method r.handlerName ep.meths
              (pathWithDocs (pathBase paths r.path) ep) ms with
          | error e => rw [hpm] at h; cases h
          | ok out2 =>
              obtain ⟨meths', pd', ms'⟩ := out2
              rw [hpm] at h
              dsimp only at h
              have hm : meths' = ep.meths.map (updEntry r.path r.method) :=
                processMeths_ok_meths _ _ _ _ _ _ _ hpm
              have hem : eraseMeths meths' = eraseMeths ep.meths := by
                rw [hm]
                exact eraseMeths_map_updEntry _ _ _
              have hrec := ih _ _ _ _ h
              rw [hrec, eraseR_step reg r.handlerId ep meths' hlook hem]

theorem processRoutes_congr :
    ∀ (routes : List Route) (r1 r2 : Registry) (paths : List (String × PathObject))
      (ms : List ModelTriple),
    eraseR r1 = eraseR r2 →
    match processRoutes r1 routes paths ms, processRoutes r2 routes paths ms with
    | .error e1, .error e2 => e1 = e2
    | .ok (g1, p1, m1), .ok (g2, p2, m2) =>
        eraseR g1 = eraseR g2 ∧ p1 = p2 ∧ m1 = m2
    | _, _ => False := by
  intro routes
  induction routes with
  | nil =>
      intro r1 r2 paths ms h
      exact ⟨h, rfl, rfl⟩
  | cons r rs ih =>
      intro r1 r2 paths ms h
      rw [processRoutes, processRoutes]
      have hl : (regLookup r1 r.handlerId).map eraseE =
          (regLookup r2 r.handlerId).map eraseE := by
        rw [← regLookup_eraseR, ← regLookup_eraseR, h]
      cases hl1 : regLookup r1 r.handlerId with
      | none =>
          cases hl2 : regLookup r2 r.handlerId with
          | none => exact ih r1 r2 paths ms h
          | some ep2 => rw [hl1, hl2] at hl; cases hl
      | some ep1 =>
          cases hl2 : regLookup r2 r.handlerId with
          | none => rw [hl1, hl2] at hl; cases hl
          | some ep2 =>
              rw [hl1, hl2] at hl
              have hee : eraseE ep1 = eraseE ep2 :=
                Option.some.inj (hl : some (eraseE ep1) = some (eraseE ep2))
              obtain ⟨hdesc, hmeths, hsum⟩ := eraseE_fields hee
              have hpd : pathWithDocs (pathBase paths r.path) ep1 =
                  pathWithDocs (pathBase paths r.path) ep2 := by
                simp [pathWithDocs, pathWithSummary, hdesc, hsum]
              dsimp only
              rw [hpd]
              have hpmc := processMeths_congr r.path r.method r.handlerName
                ep1.meths ep2.meths (pathWithDocs (pathBase paths r.path) ep2) ms hmeths
              cases hpm1 : processMeths r.path r.method r.handlerName ep1.meths
                  (pathWithDocs (pathBase paths r.path) ep2) ms with
              | error e1 =>
                  cases hpm2 : processMeths r.path r.method r.handlerName ep2.meths
                      (pathWithDocs (pathBase paths r.path) ep2) ms with
                  | error e2 =>
                      rw [hpm1, hpm2] at hpmc
                      dsimp only
                      exact (hpmc : e1 = e2)
                  | ok out2 =>
                      rw [hpm1, hpm2] at hpmc
                      obtain ⟨M2, pd2, ms2⟩ := out2
                      exact (hpmc : False).elim
              | ok out1 =>
                  cases hpm2 : processMeths r.path r.method r.handlerName ep2.meths
                      (pathWithDocs (pathBase paths r.path) ep2) ms with
                  | error e2 =>
                      rw [hpm1, hpm2] at hpmc
                      obtain ⟨M1, pd1, ms1⟩ := out1
                      exact (hpmc : False).elim
                  | ok out2 =>
                      obtain ⟨M1, pd1, ms1⟩ := out1
                      obtain ⟨M2, pd2, ms2⟩ := out2
                      rw [hpm1, hpm2] at hpmc
                      have hpmc2 : eraseMeths M1 = eraseMeths M2 ∧
                          pd1 = pd2 ∧ ms1 = ms2 := hpmc
                      obtain ⟨hM, hpd2, hms2⟩ := hpmc2
                      dsimp only
                      rw [hpd2, hms2]
                      have hreg : eraseR (assocSet r1 r.handlerId { ep1 with meths := M1 }) =
                          eraseR (assocSet r2 r.handlerId { ep2 with meths := M2 }) := by
                        rw [eraseR_assocSet, eraseR_assocSet, h,
                          eraseE_set_meths, eraseE_set_meths, hdesc, hsum, hM]
                      exact ih _ _ (assocSet paths r.path pd2) ms2 hreg

/-! ## C8: document assembly is idempotent over a frozen route table -/

theorem withComponents_paths (api : OpenApi) (defs : List (String × Schema)) :
    (withComponents api defs).paths = api.paths := by
  by_cases hd : defs.isEmpty <;> simp [withComponents, hd]

theorem withPaths_components (api : OpenApi) (ps : List (String × PathObject)) :
    (withPaths api ps).components = api.components := by
  by_cases hp : ps.isEmpty <;> simp [withPaths, hp]

theorem withComponents_components (api : OpenApi) (defs : List (String × Schema)) :
    (withComponents api defs).components =
      if defs.isEmpty then api.components else some defs := by
  by_cases hd : defs.isEmpty <;> simp [withComponents, hd]

theorem withPaths_paths (api : OpenApi) (ps : List (String × PathObject)) :
    (withPaths api ps).paths = if ps.isEmpty then api.paths else some ps := by
  by_cases hp : ps.isEmpty <;> simp [withPaths, hp]

/-- C8: for a fixed registry and a fixed, frozen route table, a second run
of `_on_startup` (over the registry state the first run left behind, which
differs only in the rebuilt runtime `query` adapters) succeeds and produces
`paths` and `components.schemas` identical to the first run's. -/
theorem c8_assembly_idempotent (reg : Registry) (api : OpenApi) (routes : List Route)
    (api1 : OpenApi) (reg1 : Registry)
    (h : onStartup reg api routes = (api1, .ok reg1)) :
    ∃ api2 reg2, onStartup reg1 api1 routes = (api2, .ok reg2) ∧
      api2.paths = api1.paths ∧ api2.components = api1.components := by
  rw [onStartup] at h
  cases hpr : processRoutes reg routes [] [] with
  | error e =>
      rw [hpr] at h
      have h2 : (Except.error e : Except String Registry) = .ok reg1 :=
        congrArg Prod.snd h
      simp at h2
  | ok out =>
      obtain ⟨g, P, M⟩ := out
      rw [hpr] at h
      dsimp only at h
      cases hsp : splice P (jsonSchemas M).1 with
      | error e =>
          rw [hsp] at h
          have h2 : (Except.error e : Except String Registry) = .ok reg1 :=
            congrArg Prod.snd h
          simp at h2
      | ok P2 =>
          rw [hsp] at h
          have hapi1 : api1 = withPaths (withComponents api (jsonSchemas M).2) P2 :=
            (congrArg Prod.fst h).symm
          have hreg1 : g = reg1 := by
            have h2 : (Except.ok g : Except String Registry) = .ok reg1 :=
              congrArg Prod.snd h
            exact Except.ok.inj h2
          subst hreg1
          have her : eraseR g = eraseR reg :=
            processRoutes_ok_eraseR routes reg [] [] (g, P, M) hpr
          have hcon := processRoutes_congr routes g reg [] [] her
          rw [hpr] at hcon
          cases hpr2 : processRoutes g routes [] [] with
          | error e2 =>
              rw [hpr2] at hcon
              exact (hcon : False).elim
          | ok out2 =>
              obtain ⟨g2, P2b, M2⟩ := out2
              rw [hpr2] at hcon
              have hcon2 : eraseR g2 = eraseR g ∧ P2b = P ∧ M2 = M := hcon
              obtain ⟨-, hPb, hMb⟩ := hcon2
              subst hPb
              subst hMb
              refine ⟨withPaths (withComponents api1 (jsonSchemas M2).2) P2, g2, ?_, ?_, ?_⟩
              · rw [onStartup, hpr2]
                dsimp only
                rw [hsp]
              · rw [withPaths_paths, withComponents_paths]
                by_cases hPe : P2.isEmpty
                · rw [if_pos hPe]
                · rw [if_neg hPe, hapi1, withPaths_paths, if_neg hPe]
              · rw [withPaths_components, withComponents_components]
                by_cases hDe : (jsonSchemas M2).2.isEmpty
                · rw [if_pos hDe]
                · rw [if_neg hDe, hapi1, withPaths_components,
                    withComponents_components, if_neg hDe]

def c8Sig : HandlerSig :=
  { docstring := some "Query handler."
    params := c2Params
    queryAnn := some { tdName := "QueryArgs"
                       fields := [{ name := "foo", ann := .prim "int", required := true }] }
    returnAnn := [{ payload := .named "Poll" [("id", .prim "int")], codeLit := some 200 }] }

def c8Reg : Registry := apiDecorate [] 3 c8Sig []

def c8Routes : List Route :=
  [{ handlerId := 3, method := "GET", path := "/foo", handlerName := "handler" }]

def c8Run1 : OpenApi × Except String Registry :=
  onStartup c8Reg (initOpenApi none) c8Routes

def c8Reg1 : Registry :=
  match c8Run1.2 with
  | .ok g => g
  | .error _ => []

theorem c8_assembly_idempotent_witness :
    ∃ api2 reg2, onStartup c8Reg1 c8Run1.1 c8Routes = (api2, .ok reg2) ∧
      api2.paths = c8Run1.1.paths ∧ api2.components = c8Run1.1.components :=
  c8_assembly_idempotent c8Reg (initOpenApi none) c8Routes c8Run1.1 c8Reg1 rfl

/-! ## C4: a non-OpenAPI method aborts assembly with no partial document -/

theorem processMeths_error_of_bad (path rm opId : String) :
    ∀ (meths : List (Option String × EndpointData)) (pd : PathObject)
      (ms : List ModelTriple) (mk : Option String) (d : EndpointData),
    (mk, d) ∈ meths →
    normMeth mk rm ≠ "head" →
    isOpenapiMethod (normMeth mk rm) = false →
    ∃ e, processMeths path rm opId meths pd ms = .error e := by
  intro meths
  induction meths with
  | nil =>
      intro pd ms mk d hmem
      cases hmem
  | cons hd tl ih =>
      intro pd ms mk d hmem hnh hbad
      obtain ⟨mk0, d0⟩ := hd
      by_cases hh : normMeth mk0 rm = "head"
      · rcases List.mem_cons.mp hmem with heq | hmem2
        · obtain ⟨hmk, -⟩ := Prod.mk.injEq .. ▸ heq
          exact absurd (hmk ▸ hh) hnh
        · obtain ⟨e, he⟩ := ih pd ms mk d hmem2 hnh hbad
          refine ⟨e, ?_⟩
          rw [processMeths, if_pos hh, he]
      · by_cases hv : isOpenapiMethod (normMeth mk0 rm) = false
        · refine ⟨methodErrMsg (normMeth mk0 rm), ?_⟩
          rw [processMeths, if_neg hh, if_pos hv]
        · rcases List.mem_cons.mp hmem with heq | hmem2
          · obtain ⟨hmk, -⟩ := Prod.mk.injEq .. ▸ heq
            rw [← hmk] at hv
            exact absurd hbad hv
          · cases hq : queryStep path (normMeth mk0 rm) d0 with
            | error e =>
                refine ⟨e, ?_⟩
                rw [processMeths, if_neg hh, if_neg hv, hq]
            | ok pr =>
                obtain ⟨d', qms⟩ := pr
                obtain ⟨e, he⟩ := ih
                  (opsSet pd (normMeth mk0 rm) (mkOperation opId d0))
                  ((ms ++ bodyTriples path (normMeth mk0 rm) d0) ++ qms
                    ++ respTriples path (normMeth mk0 rm) d0)
                  mk d hmem2 hnh hbad
                refine ⟨e, ?_⟩
                rw [processMeths, if_neg hh, if_neg hv, hq]
                dsimp only
                rw [he]

theorem processRoutes_error_of_bad :
    ∀ (routes : List Route) (reg : Registry) (paths : List (String × PathObject))
      (ms : List ModelTriple) (r : Route) (ep : Endpoint) (mk : Option String)
      (d : EndpointData),
    r ∈ routes →
    alookup (eraseR reg) r.handlerId = some ep →
    (mk, d) ∈ ep.meths →
    normMeth mk r.method ≠ "head" →
    isOpenapiMethod (normMeth mk r.method) = false →
    ∃ e, processRoutes reg routes paths ms = .error e := by
  intro routes
  induction routes with
  | nil =>
      intro reg paths ms r ep mk d hr
      cases hr
  | cons q rs ih =>
      intro reg paths ms r ep mk d hr hep hmd hnh hbad
      rcases List.mem_cons.mp hr with hq | hr2
      · subst hq
        cases hl : regLookup reg r.handlerId with
        | none => rw [regLookup_eraseR, hl] at hep; cases hep
        | some ep0 =>
            rw [regLookup_eraseR, hl] at hep
            have hep2 : eraseE ep0 = ep := Option.some.inj hep
            have hmd2 : (mk, d) ∈ eraseMeths ep0.meths := by
              rw [← hep2] at hmd
              exact hmd
            obtain ⟨x, hmem0, hfe⟩ := List.mem_map.mp hmd2
            obtain ⟨mk0, d0⟩ := x
            have hmk : mk0 = mk := congrArg Prod.fst hfe
            subst hmk
            obtain ⟨e, he⟩ := processMeths_error_of_bad r.path r.method r.handlerName
              ep0.meths (pathWithDocs (pathBase paths r.path) ep0) ms mk0 d0
              hmem0 hnh hbad
            refine ⟨e, ?_⟩
            rw [processRoutes, hl]
            dsimp only
            rw [he]
      · cases hl : regLookup reg q.handlerId with
        | none =>
            obtain ⟨e, he⟩ := ih reg paths ms r ep mk d hr2 hep hmd hnh hbad
            refine ⟨e, ?_⟩
            rw [processRoutes, hl]
            exact he
        | some ep0 =>
            cases hpm : processMeths q.path q.method q.handlerName ep0.meths
                (pathWithDocs (pathBase paths q.path) ep0) ms with
            | error e =>
                refine ⟨e, ?_⟩
                rw [processRoutes, hl]
                dsimp only
                rw [hpm]
            | ok out =>
                obtain ⟨meths', pd', ms'⟩ := out
                have hm : meths' = ep0.meths.map (updEntry q.path q.method) :=
                  processMeths_ok_meths _ _ _ _ _ _ _ hpm
                have hem : eraseMeths meths' = eraseMeths ep0.meths := by
                  rw [hm]
                  exact eraseMeths_map_updEntry _ _ _
                have hep' : alookup
                    (eraseR (assocSet reg q.handlerId { ep0 with meths := meths' }))
                    r.handlerId = some ep := by
                  rw [eraseR_step reg q.handlerId ep0 meths' hl hem]
                  exact hep
                obtain ⟨e, he⟩ := ih _ (assocSet paths q.path pd') ms' r ep mk d
                  hr2 hep' hmd hnh hbad
                refine ⟨e, ?_⟩
                rw [processRoutes, hl]
                dsimp only
                rw [hpm]
                dsimp only
                exact he

/-- C4: a matched route whose normalized method is not one of the eight
OpenAPI verbs makes `_on_startup` raise `ValueError`, and `self._openapi`
is left exactly as it was — no `paths` and no `components` from this
assembly pass are published. -/
theorem c4_bad_method_aborts (reg : Registry) (api : OpenApi) (routes : List Route)
    (r : Route) (ep : Endpoint) (mk : Option String) (d : EndpointData)
    (hr : r ∈ routes) (hep : regLookup reg r.handlerId = some ep)
    (hmd : (mk, d) ∈ ep.meths)
    (hnh : normMeth mk r.method ≠ "head")
    (hbad : isOpenapiMethod (normMeth mk r.method) = false) :
    ∃ e, onStartup reg api routes = (api, .error e) := by
  have hep2 : alookup (eraseR reg) r.handlerId = some (eraseE ep) := by
    rw [regLookup_eraseR, hep]
    rfl
  have hmd2 : (mk, eraseD d) ∈ (eraseE ep).meths :=
    List.mem_map_of_mem (fun md => (md.1, eraseD md.2)) hmd
  obtain ⟨e, he⟩ := processRoutes_error_of_bad routes reg [] [] r (eraseE ep) mk
    (eraseD d) hr hep2 hmd2 hnh hbad
  refine ⟨e, ?_⟩
  rw [onStartup, he]

def c4Sig : HandlerSig :=
  { docstring := none, params := c2Params, queryAnn := none
    returnAnn := [{ payload := .prim "int", codeLit := some 200 }] }

def c4Reg : Registry := apiDecorate [] 7 c4Sig []

def c4Route : Route :=
  { handlerId := 7, method := "PURGE", path := "/x", handlerName := "handler" }

def c4Ep : Endpoint :=
  { desc := none, meths := [(none, saveHandler c4Sig [])], summary := none }

theorem c4_bad_method_aborts_witness :
    ∃ e, onStartup c4Reg (initOpenApi none) [c4Route] = (initOpenApi none, .error e) :=
  c4_bad_method_aborts c4Reg (initOpenApi none) [c4Route] c4Route c4Ep none
    (saveHandler c4Sig []) (List.mem_cons_self _ _) rfl (List.mem_cons_self _ _)
    (by decide) (by decide)

/-! ## C5: no `head` key is ever emitted as a path-item operation -/

def noHeadOps (pd : PathObject) : Prop := ∀ op, ("head", op) ∉ pd.ops

def noHeadPaths (paths : List (String × PathObject)) : Prop :=
  ∀ p pd, (p, pd) ∈ paths → noHeadOps pd

theorem noHeadOps_assocSet {ops : List (String × OperationObject)}
    (method : String) (op' : OperationObject)
    (h : ∀ op, ("head", op) ∉ ops) (hm : method ≠ "head") :
    ∀ op, ("head", op) ∉ assocSet ops method op' := by
  intro op2 hmem
  rcases mem_assocSet hmem with heq | hmem2
  · exact hm (congrArg Prod.fst heq).symm
  · exact h op2 hmem2

theorem pathWithSummary_ops (pd : PathObject) (e : Endpoint) :
    (pathWithSummary pd e).ops = pd.ops := by
  rw [pathWithSummary]
  cases optTruthy e.summary <;> rfl

theorem pathWithDocs_ops (pd : PathObject) (e : Endpoint) :
    (pathWithDocs pd e).ops = pd.ops := by
  rw [pathWithDocs]
  cases optTruthy e.desc <;> simp [pathWithSummary_ops]

theorem processMeths_noHead (path rm opId : String) :
    ∀ (meths : List (Option String × EndpointData)) (pd : PathObject)
      (ms : List ModelTriple)
      (out : List (Option String × EndpointData) × PathObject × List ModelTriple),
    processMeths path rm opId meths pd ms = .ok out →
    noHeadOps pd → noHeadOps out.2.1 := by
  intro meths
  induction meths with
  | nil =>
      intro pd ms out h hpd
      cases h
      exact hpd
  | cons hd tl ih =>
      intro pd ms out h hpd
      obtain ⟨mk, d⟩ := hd
      by_cases hh : normMeth mk rm = "head"
      · rw [processMeths, if_pos hh] at h
        cases hrec : processMeths path rm opId tl pd ms with
        | error e => rw [hrec] at h; cases h
        | ok out2 =>
            obtain ⟨r2, pd2, ms2⟩ := out2
            rw [hrec] at h
            cases h
            exact ih pd ms (r2, pd2, ms2) hrec hpd
      · by_cases hv : isOpenapiMethod (normMeth mk rm) = false
        · rw [processMeths, if_neg hh, if_pos hv] at h
          cases h
        · rw [processMeths, if_neg hh, if_neg hv] at h
          cases hq : queryStep path (normMeth mk rm) d with
          | error e => rw [hq] at h; cases h
          | ok pr =>
              obtain ⟨d', qms⟩ := pr
              rw [hq] at h
              dsimp only at h
              cases hrec : processMeths path rm opId tl
                  (opsSet pd (normMeth mk rm) (mkOperation opId d))
                  ((ms ++ bodyTriples path (normMeth mk rm) d) ++ qms
                    ++ respTriples path (normMeth mk rm) d) with
              | error e => rw [hrec] at h; cases h
              | ok out2 =>
                  obtain ⟨r2, pd2, ms2⟩ := out2
                  rw [hrec] at h
                  cases h
                  exact ih _ _ (r2, pd2, ms2) hrec (noHeadOps_assocSet _ _ hpd hh)

theorem noHeadPaths_update (paths : List (String × PathObject)) (p : String)
    (pd' : PathObject)
    (hp : noHeadPaths paths) (hpd : noHeadOps pd') :
    noHeadPaths (assocSet paths p pd') := by
  intro p2 pd2 hmem
  rcases mem_assocSet hmem with heq | hmem2
  · have h2 : pd2 = pd' := congrArg Prod.snd heq
    rw [h2]
    exact hpd
  · exact hp p2 pd2 hmem2

theorem pathBase_noHead (paths : List (String × PathObject)) (p : String)
    (hp : noHeadPaths paths) : noHeadOps (pathBase paths p) := by
  rw [pathBase]
  cases hl : alookup paths p with
  | none =>
      intro op hmem
      cases hmem
  | some pd => exact hp p pd (alookup_mem hl)

theorem processRoutes_noHead :
    ∀ (routes : List Route) (reg : Registry) (paths : List (String × PathObject))
      (ms : List ModelTriple)
      (out : Registry × List (String × PathObject) × List ModelTriple),
    processRoutes reg routes paths ms = .ok out →
    noHeadPaths paths → noHeadPaths out.2.1 := by
  intro routes
  induction routes with
  | nil =>
      intro reg paths ms out h hp
      cases h
      exact hp
  | cons r rs ih =>
      intro reg paths ms out h hp
      rw [processRoutes] at h
      cases hl : regLookup reg r.handlerId with
      | none =>
          rw [hl] at h
          exact ih _ _ _ _ h hp
      | some ep =>
          rw [hl] at h
          dsimp only at h
          cases hpm : processMeths r.path r.method r.handlerName ep.meths
              (pathWithDocs (pathBase paths r.path) ep) ms with
          | error e => rw [hpm] at h; cases h
          | ok out2 =>
              obtain ⟨meths', pd', ms'⟩ := out2
              rw [hpm] at h
              dsimp only at h
              have hn0 : noHeadOps (pathWithDocs (pathBase paths r.path) ep) := by
                intro op hmem
                rw [pathWithDocs_ops] at hmem
                exact pathBase_noHead paths r.path hp op hmem
              have hn1 : noHeadOps pd' := processMeths_noHead _ _ _ _ _ _ _ hpm hn0
              exact ih _ _ _ _ h (noHeadPaths_update paths r.path pd' hp hn1)

theorem spliceOne_noHead (paths : List (String × PathObject)) (km : MKey × Mode)
    (s : Schema) (paths2 : List (String × PathObject))
    (h : spliceOne paths km s = .ok paths2) (hp : noHeadPaths paths) :
    noHeadPaths paths2 := by
  rw [spliceOne] at h
  cases hl : alookup paths km.1.path with
  | none => rw [hl] at h; cases h
  | some pd =>
      rw [hl] at h
      dsimp only at h
      cases hol : alookup pd.ops km.1.method with
      | none => rw [hol] at h; cases h
      | some op =>
          rw [hol] at h
          dsimp only at h
          have hnd : noHeadOps pd := hp km.1.path pd (alookup_mem hl)
          have hm : km.1.method ≠ "head" := by
            intro hmeq
            exact hnd op (hmeq ▸ alookup_mem hol)
          cases hdisc : km.1.disc with
          | reqBody =>
              rw [hdisc] at h
              cases h
              exact noHeadPaths_update _ _ _ hp
                (noHeadOps_assocSet _ _ hnd hm)
          | param nm rq =>
              rw [hdisc] at h
              cases h
              exact noHeadPaths_update _ _ _ hp
                (noHeadOps_assocSet _ _ hnd hm)
          | response code =>
              rw [hdisc] at h
              dsimp only at h
              cases hph : httpStatusPhrase code with
              | none => rw [hph] at h; cases h
              | some reason =>
                  rw [hph] at h
                  dsimp only at h
                  cases h
                  exact noHeadPaths_update _ _ _ hp
                    (noHeadOps_assocSet _ _ hnd hm)

theorem splice_noHead :
    ∀ (elems : List ((MKey × Mode) × Schema)) (paths paths2 : List (String × PathObject)),
    splice paths elems = .ok paths2 → noHeadPaths paths → noHeadPaths paths2 := by
  intro elems
  induction elems with
  | nil =>
      intro paths paths2 h hp
      cases h
      exact hp
  | cons hd tl ih =>
      intro paths paths2 h hp
      obtain ⟨km, s⟩ := hd
      rw [splice] at h
      cases hso : spliceOne paths km s with
      | error e => rw [hso] at h; cases h
      | ok paths1 =>
          rw [hso] at h
          exact ih _ _ h (spliceOne_noHead _ _ _ _ hso hp)

/-- C5: over a generator in its initial state (no `paths` yet), a successful
assembly never emits a `head` key in any path item of the published
document, even when a descriptor was explicitly registered under the `head`
method — such entries are skipped (generator.py 318-320). -/
theorem c5_head_never_emitted (reg : Registry) (api : OpenApi) (routes : List Route)
    (api2 : OpenApi) (reg2 : Registry)
    (hpaths0 : api.paths = none)
    (h : onStartup reg api routes = (api2, .ok reg2)) :
    ∀ ps p pd op, api2.paths = some ps → (p, pd) ∈ ps → ("head", op) ∉ pd.ops := by
  rw [onStartup] at h
  cases hpr : processRoutes reg routes [] [] with
  | error e =>
      rw [hpr] at h
      have h2 : (Except.error e : Except String Registry) = .ok reg2 :=
        congrArg Prod.snd h
      simp at h2
  | ok out =>
      obtain ⟨g, P, M⟩ := out
      rw [hpr] at h
      dsimp only at h
      cases hsp : splice P (jsonSchemas M).1 with
      | error e =>
          rw [hsp] at h
          have h2 : (Except.error e : Except String Registry) = .ok reg2 :=
            congrArg Prod.snd h
          simp at h2
      | ok P2 =>
          rw [hsp] at h
          have hapi : api2 = withPaths (withComponents api (jsonSchemas M).2) P2 :=
            (congrArg Prod.fst h).symm
          have hnP : noHeadPaths P := by
            refine processRoutes_noHead routes reg [] [] (g, P, M) hpr ?_
            intro p pd hmem
            cases hmem
          have hnP2 : noHeadPaths P2 := splice_noHead _ _ _ hsp hnP
          intro ps p pd op hps hmem
          rw [hapi, withPaths_paths] at hps
          by_cases hPe : P2.isEmpty
          · rw [if_pos hPe, withComponents_paths, hpaths0] at hps
            cases hps
          · rw [if_neg hPe] at hps
            have hps2 : P2 = ps := Option.some.inj hps
            rw [← hps2] at hmem
            exact hnP2 p pd hmem op

def c5Sig : HandlerSig :=
  { docstring := none, params := c2Params, queryAnn := none
    returnAnn := [{ payload := .prim "int", codeLit := some 200 }] }

def c5Reg : Registry :=
  apiViewDecorate [] 9 (some "A view.") [("head", c5Sig), ("get", c5Sig)] []

def c5Route : Route :=
  { handlerId := 9, method := "GET", path := "/v", handlerName := "View" }

def c5Run : OpenApi × Except String Registry :=
  onStartup c5Reg (initOpenApi none) [c5Route]

def c5RegOut : Registry :=
  match c5Run.2 with
  | .ok g => g
  | .error _ => []

def c5Ps : List (String × PathObject) :=
  match c5Run.1.paths with
  | some ps => ps
  | none => []

def c5Pd : PathObject :=
  match alookup c5Ps "/v" with
  | some pd => pd
  | none => { summary := none, description := none, ops := [] }

theorem c5_head_never_emitted_witness :
    ("head", mkOperation "View" (saveHandler c5Sig [])) ∉ c5Pd.ops :=
  c5_head_never_emitted c5Reg (initOpenApi none) [c5Route] c5Run.1 c5RegOut rfl rfl
    c5Ps "/v" c5Pd (mkOperation "View" (saveHandler c5Sig [])) rfl
    (List.mem_cons_self _ _)

/-! ## C10: a nonstandard response status code aborts assembly -/

theorem processMeths_models_mono (path rm opId : String) :
    ∀ (meths : List (Option String × EndpointData)) (pd : PathObject)
      (ms : List ModelTriple)
      (out : List (Option String × EndpointData) × PathObject × List ModelTriple),
    processMeths path rm opId meths pd ms = .ok out →
    ∀ x ∈ ms, x ∈ out.2.2 := by
  intro meths
  induction meths with
  | nil =>
      intro pd ms out h x hx
      cases h
      exact hx
  | cons hd tl ih =>
      intro pd ms out h x hx
      obtain ⟨mk, d⟩ := hd
      by_cases hh : normMeth mk rm = "head"
      · rw [processMeths, if_pos hh] at h
        cases hrec : processMeths path rm opId tl pd ms with
        | error e => rw [hrec] at h; cases h
        | ok out2 =>
            obtain ⟨r2, pd2, ms2⟩ := out2
            rw [hrec] at h
            cases h
            exact ih pd ms (r2, pd2, ms2) hrec x hx
      · by_cases hv : isOpenapiMethod (normMeth mk rm) = false
        · rw [processMeths, if_neg hh, if_pos hv] at h
          cases h
        · rw [processMeths, if_neg hh, if_neg hv] at h
          cases hq : queryStep path (normMeth mk rm) d with
          | error e => rw [hq] at h; cases h
          | ok pr =>
              obtain ⟨d', qms⟩ := pr
              rw [hq] at h
              dsimp only at h
              cases hrec : processMeths path rm opId tl
                  (opsSet pd (normMeth mk rm) (mkOperation opId d))
                  ((ms ++ bodyTriples path (normMeth mk rm) d) ++ qms
                    ++ respTriples path (normMeth mk rm) d) with
              | error e => rw [hrec] at h; cases h
              | ok out2 =>
                  obtain ⟨r2, pd2, ms2⟩ := out2
                  rw [hrec] at h
                  cases h
                  refine ih _ _ (r2, pd2, ms2) hrec x ?_
                  exact List.mem_append_left _ (List.mem_append_left _
                    (List.mem_append_left _ hx))

theorem processMeths_resp_mem (path rm opId : String) :
    ∀ (meths : List (Option String × EndpointData)) (pd : PathObject)
      (ms : List ModelTriple)
      (out : List (Option String × EndpointData) × PathObject × List ModelTriple)
      (mk : Option String) (d : EndpointData) (c : Nat) (T : TypeDesc),
    processMeths path rm opId meths pd ms = .ok out →
    (mk, d) ∈ meths →
    normMeth mk rm ≠ "head" →
    (c, T) ∈ d.resps →
    (⟨path, normMeth mk rm, .response c⟩, Mode.serialization, T) ∈ out.2.2 := by
  intro meths
  induction meths with
  | nil =>
      intro pd ms out mk d c T h hmem
      cases hmem
  | cons hd tl ih =>
      intro pd ms out mk d c T h hmem hnh hct
      obtain ⟨mk0, d0⟩ := hd
      by_cases hh : normMeth mk0 rm = "head"
      · rcases List.mem_cons.mp hmem with heq | hmem2
        · have hmk : mk = mk0 := congrArg Prod.fst heq
          exact absurd (hmk ▸ hh) hnh
        · rw [processMeths, if_pos hh] at h
          cases hrec : processMeths path rm opId tl pd ms with
          | error e => rw [hrec] at h; cases h
          | ok out2 =>
              obtain ⟨r2, pd2, ms2⟩ := out2
              rw [hrec] at h
              cases h
              exact ih pd ms (r2, pd2, ms2) mk d c T hrec hmem2 hnh hct
      · by_cases hv : isOpenapiMethod (normMeth mk0 rm) = false
        · rw [processMeths, if_neg hh, if_pos hv] at h
          cases h
        · rw [processMeths, if_neg hh, if_neg hv] at h
          cases hq : queryStep path (normMeth mk0 rm) d0 with
          | error e => rw [hq] at h; cases h
          | ok pr =>
              obtain ⟨d', qms⟩ := pr
              rw [hq] at h
              dsimp only at h
              cases hrec : processMeths path rm opId tl
                  (opsSet pd (normMeth mk0 rm) (mkOperation opId d0))
                  ((ms ++ bodyTriples path (normMeth mk0 rm) d0) ++ qms
                    ++ respTriples path (normMeth mk0 rm) d0) with
              | error e => rw [hrec] at h; cases h
              | ok out2 =>
                  obtain ⟨r2, pd2, ms2⟩ := out2
                  rw [hrec] at h
                  cases h
                  rcases List.mem_cons.mp hmem with heq | hmem2
                  · have hmk : mk = mk0 := congrArg Prod.fst heq
                    have hdd : d = d0 := congrArg Prod.snd heq
                    subst hmk
                    subst hdd
                    refine processMeths_models_mono path rm opId tl _ _
                      (r2, pd2, ms2) hrec _ ?_
                    refine List.mem_append_right _ ?_
                    exact List.mem_map_of_mem
                      (fun ct => ((⟨path, normMeth mk rm, KeyDisc.response ct.1⟩ : MKey),
                        Mode.serialization, ct.2)) hct
                  · exact ih _ _ (r2, pd2, ms2) mk d c T hrec hmem2 hnh hct

theorem processRoutes_models_mono :
    ∀ (routes : List Route) (reg : Registry) (paths : List (String × PathObject))
      (ms : List ModelTriple)
      (out : Registry × List (String × PathObject) × List ModelTriple),
    processRoutes reg routes paths ms = .ok out →
    ∀ x ∈ ms, x ∈ out.2.2 := by
  intro routes
  induction routes with
  | nil =>
      intro reg paths ms out h x hx
      cases h
      exact hx
  | cons r rs ih =>
      intro reg paths ms out h x hx
      rw [processRoutes] at h
      cases hl : regLookup reg r.handlerId with
      | none =>
          rw [hl] at h
          exact ih _ _ _ _ h x hx
      | some ep =>
          rw [hl] at h
          dsimp only at h
          cases hpm : processMeths r.path r.method r.handlerName ep.meths
              (pathWithDocs (pathBase paths r.path) ep) ms with
          | error e => rw [hpm] at h; cases h
          | ok out2 =>
              obtain ⟨meths', pd', ms'⟩ := out2
              rw [hpm] at h
              dsimp only at h
              exact ih _ _ _ _ h x
                (processMeths_models_mono _ _ _ _ _ _ (meths', pd', ms') hpm x hx)

theorem processRoutes_resp_mem :
    ∀ (routes : List Route) (reg : Registry) (paths : List (String × PathObject))
      (ms : List ModelTriple)
      (out : Registry × List (String × PathObject) × List ModelTriple)
      (r : Route) (ep : Endpoint) (mk : Option String) (d : EndpointData)
      (c : Nat) (T : TypeDesc),
    processRoutes reg routes paths ms = .ok out →
    r ∈ routes →
    alookup (eraseR reg) r.handlerId = some ep →
    (mk, d) ∈ ep.meths →
    normMeth mk r.method ≠ "head" →
    (c, T) ∈ d.resps →
    (⟨r.path, normMeth mk r.method, .response c⟩, Mode.serialization, T) ∈ out.2.2 := by
  intro routes
  induction routes with
  | nil =>
      intro reg paths ms out r ep mk d c T h hr
      cases hr
  | cons q rs ih =>
      intro reg paths ms out r ep mk d c T h hr hep hmd hnh hct
      rw [processRoutes] at h
      rcases List.mem_cons.mp hr with hq | hr2
      · subst hq
        cases hl : regLookup reg r.handlerId with
        | none => rw [regLookup_eraseR, hl] at hep; cases hep
        | some ep0 =>
            rw [hl] at h
            dsimp only at h
            rw [regLookup_eraseR, hl] at hep
            have hep2 : eraseE ep0 = ep := Option.some.inj hep
            have hmd2 : (mk, d) ∈ eraseMeths ep0.meths := by
              rw [← hep2] at hmd
              exact hmd
            obtain ⟨x, hmem0, hfe⟩ := List.mem_map.mp hmd2
            obtain ⟨mk0, d0⟩ := x
            have hmk : mk0 = mk := congrArg Prod.fst hfe
            have hd0 : eraseD d0 = d := congrArg Prod.snd hfe
            subst hmk
            have hct0 : (c, T) ∈ d0.resps := by
              rw [← hd0] at hct
              exact hct
            cases hpm : processMeths r.path r.method r.handlerName ep0.meths
                (pathWithDocs (pathBase paths r.path) ep0) ms with
            | error e => rw [hpm] at h; cases h
            | ok out2 =>
                obtain ⟨meths', pd', ms'⟩ := out2
                rw [hpm] at h
                dsimp only at h
                have htrip := processMeths_resp_mem r.path r.method r.handlerName
                  ep0.meths _ ms (meths', pd', ms') mk0 d0 c T hpm hmem0 hnh hct0
                exact processRoutes_models_mono rs _ _ _ out h _ htrip
      · cases hl : regLookup reg q.handlerId with
        | none =>
            rw [hl] at h
            exact ih _ _ _ _ r ep mk d c T h hr2 hep hmd hnh hct
        | some ep0 =>
            rw [hl] at h
            dsimp only at h
            cases hpm : processMeths q.path q.method q.handlerName ep0.meths
                (pathWithDocs (pathBase paths q.path) ep0) ms with
            | error e => rw [hpm] at h; cases h
            | ok out2 =>
                obtain ⟨meths', pd', ms'⟩ := out2
                rw [hpm] at h
                dsimp only at h
                have hm : meths' = ep0.meths.map (updEntry q.path q.method) :=
                  processMeths_ok_meths _ _ _ _ _ _ _ hpm
                have hem : eraseMeths meths' = eraseMeths ep0.meths := by
                  rw [hm]
                  exact eraseMeths_map_updEntry _ _ _
                have hep' : alookup
                    (eraseR (assocSet reg q.handlerId { ep0 with meths := meths' }))
                    r.handlerId = some ep := by
                  rw [eraseR_step reg q.handlerId ep0 meths' hl hem]
                  exact hep
                exact ih _ _ _ _ r ep mk d c T h hr2 hep' hmd hnh hct

theorem jsonSchemasAux_isSome :
    ∀ (models : List ModelTriple) (elems : List ((MKey × Mode) × Schema))
      (defs : List (String × Schema)) (k : MKey) (m : Mode),
    (alookup elems (k, m)).isSome →
    (alookup (jsonSchemasAux models elems defs).1 (k, m)).isSome := by
  intro models
  induction models with
  | nil =>
      intro elems defs k m h
      exact h
  | cons hd tl ih =>
      intro elems defs k m h
      obtain ⟨k0, m0, t0⟩ := hd
      cases hsd : schemaOf t0 defs with
      | mk s0 defs0 =>
          rw [jsonSchemasAux, hsd]
          exact ih _ _ k m (alookup_isSome_assocSet _ _ _ _ h)

theorem jsonSchemasAux_mem_isSome :
    ∀ (models : List ModelTriple) (elems : List ((MKey × Mode) × Schema))
      (defs : List (String × Schema)) (k : MKey) (m : Mode) (T : TypeDesc),
    (k, m, T) ∈ models →
    (alookup (jsonSchemasAux models elems defs).1 (k, m)).isSome := by
  intro models
  induction models with
  | nil =>
      intro elems defs k m T h
      cases h
  | cons hd tl ih =>
      intro elems defs k m T h
      obtain ⟨k0, m0, t0⟩ := hd
      rcases List.mem_cons.mp h with heq | hmem2
      · have hk : k = k0 := congrArg Prod.fst heq
        have hm : m = m0 := congrArg (fun x => x.2.1) heq
        subst hk
        subst hm
        cases hsd : schemaOf t0 defs with
        | mk s0 defs0 =>
            rw [jsonSchemasAux, hsd]
            refine jsonSchemasAux_isSome tl _ _ k m ?_
            rw [alookup_assocSet_self]
            rfl
      · cases hsd : schemaOf t0 defs with
        | mk s0 defs0 =>
            rw [jsonSchemasAux, hsd]
            exact ih _ _ k m T hmem2

theorem splice_not_ok_of_badcode :
    ∀ (elems : List ((MKey × Mode) × Schema)) (paths : List (String × PathObject))
      (k : MKey) (m : Mode) (s : Schema) (c : Nat),
    ((k, m), s) ∈ elems → k.disc = .response c → httpStatusPhrase c = none →
    ∀ res, splice paths elems ≠ .ok res := by
  intro elems
  induction elems with
  | nil =>
      intro paths k m s c hmem
      cases hmem
  | cons hd tl ih =>
      intro paths k m s c hmem hdisc hbad res h
      obtain ⟨km0, s0⟩ := hd
      rw [splice] at h
      cases hso : spliceOne paths km0 s0 with
      | error e => rw [hso] at h; cases h
      | ok paths1 =>
          rw [hso] at h
          rcases List.mem_cons.mp hmem with heq | hmem2
          · have hkm : (k, m) = km0 := congrArg Prod.fst heq
            rw [spliceOne] at hso
            rw [← hkm] at hso
            cases hl : alookup paths k.path with
            | none => rw [hl] at hso; cases hso
            | some pd =>
                rw [hl] at hso
                dsimp only at hso
                cases hol : alookup pd.ops k.method with
                | none => rw [hol] at hso; cases hso
                | some op =>
                    rw [hol] at hso
                    dsimp only at hso
                    rw [hdisc] at hso
                    dsimp only at hso
                    rw [hbad] at hso
                    cases hso
          · exact ih paths1 k m s c hmem2 hdisc hbad res h

/-- C10: document assembly completes without raising only if every declared
response status code of every matched endpoint is a standard `HTTPStatus`
member: a matched, non-`head` descriptor carrying a response code with no
known reason phrase (e.g. 599) makes `_on_startup` raise while looking up
`HTTPStatus(code).phrase`, so startup aborts even though the method and all
type descriptions are valid. -/
theorem c10_nonstandard_status_aborts (reg : Registry) (api : OpenApi)
    (routes : List Route) (r : Route) (ep : Endpoint) (mk : Option String)
    (d : EndpointData) (c : Nat) (T : TypeDesc)
    (hr : r ∈ routes) (hep : regLookup reg r.handlerId = some ep)
    (hmd : (mk, d) ∈ ep.meths)
    (hnh : normMeth mk r.method ≠ "head")
    (hct : (c, T) ∈ d.resps)
    (hbad : httpStatusPhrase c = none) :
    ∀ reg2, (onStartup reg api routes).2 ≠ .ok reg2 := by
  intro reg2 hok
  rw [onStartup] at hok
  cases hpr : processRoutes reg routes [] [] with
  | error e =>
      rw [hpr] at hok
      exact Except.noConfusion
        (hok : (Except.error e : Except String Registry) = .ok reg2)
  | ok out =>
      obtain ⟨g, P, M⟩ := out
      rw [hpr] at hok
      dsimp only at hok
      have hep2 : alookup (eraseR reg) r.handlerId = some (eraseE ep) := by
        rw [regLookup_eraseR, hep]
        rfl
      have hmd2 : (mk, eraseD d) ∈ (eraseE ep).meths :=
        List.mem_map_of_mem (fun md => (md.1, eraseD md.2)) hmd
      have hct2 : (c, T) ∈ (eraseD d).resps := hct
      have htrip := processRoutes_resp_mem routes reg [] [] (g, P, M) r (eraseE ep)
        mk (eraseD d) c T hpr hr hep2 hmd2 hnh hct2
      have hsome := jsonSchemasAux_mem_isSome M [] []
        ⟨r.path, normMeth mk r.method, .response c⟩ Mode.serialization T htrip
      obtain ⟨sv, hsv⟩ := Option.isSome_iff_exists.mp hsome
      have hmem : ((⟨r.path, normMeth mk r.method, .response c⟩,
          Mode.serialization), sv) ∈ (jsonSchemas M).1 := alookup_mem hsv
      cases hsp : splice P (jsonSchemas M).1 with
      | error e =>
          rw [hsp] at hok
          exact Except.noConfusion
            (hok : (Except.error e : Except String Registry) = .ok reg2)
      | ok P2 =>
          exact splice_not_ok_of_badcode _ P _ _ _ c hmem rfl hbad P2 hsp

def c10Sig : HandlerSig :=
  { docstring := none, params := c2Params, queryAnn := none
    returnAnn := [{ payload := .prim "int", codeLit := some 599 }] }

def c10Reg : Registry := apiDecorate [] 11 c10Sig []

def c10Route : Route :=
  { handlerId := 11, method := "GET", path := "/s", handlerName := "handler" }

def c10Ep : Endpoint :=
  { desc := none, meths := [(none, saveHandler c10Sig [])], summary := none }

theorem c10_nonstandard_status_aborts_witness :
    (onStartup c10Reg (initOpenApi none) [c10Route]).2 ≠ .ok [] :=
  c10_nonstandard_status_aborts c10Reg (initOpenApi none) [c10Route] c10Route c10Ep
    none (saveHandler c10Sig []) 599 (.prim "int")
    (List.mem_cons_self _ _) rfl (List.mem_cons_self _ _) (by decide)
    (List.mem_cons_self _ _) rfl []

/-! ## C3: shared named composite types are emitted once and referenced -/

theorem nodup_keys_eq {κ α : Type} [DecidableEq κ] :
    ∀ (l : List (κ × α)) (a : κ) (b c : α),
    (l.map Prod.fst).Nodup → (a, b) ∈ l → (a, c) ∈ l → b = c := by
  intro l
  induction l with
  | nil =>
      intro a b c hnd hb
      cases hb
  | cons hd tl ih =>
      intro a b c hnd hb hc
      obtain ⟨k0, v0⟩ := hd
      rw [List.map_cons, List.nodup_cons] at hnd
      rcases List.mem_cons.mp hb with hb1 | hb1 <;>
        rcases List.mem_cons.mp hc with hc1 | hc1
      · have h1 : b = v0 := congrArg Prod.snd hb1
        have h2 : c = v0 := congrArg Prod.snd hc1
        rw [h1, h2]
      · have h1 : a = k0 := congrArg Prod.fst hb1
        have h2 : a ∈ List.map Prod.fst tl := List.mem_map_of_mem Prod.fst hc1
        rw [h1] at h2
        exact absurd h2 hnd.1
      · have h1 : a = k0 := congrArg Prod.fst hc1
        have h2 : a ∈ List.map Prod.fst tl := List.mem_map_of_mem Prod.fst hb1
        rw [h1] at h2
        exact absurd h2 hnd.1
      · exact ih a b c hnd.2 hb1 hc1

theorem schemaOf_named_ref (n : String) (flds : List (String × TypeDesc))
    (defs : List (String × Schema)) :
    (schemaOf (.named n flds) defs).1 = .ref n := by
  rw [schemaOf]
  by_cases hc : (defs.map Prod.fst).contains n
  · rw [if_pos hc]
  · rw [if_neg hc]
    cases hsf : schemaOfFields flds defs with
    | mk props d =>
        dsimp only
        by_cases hc2 : (d.map Prod.fst).contains n
        · rw [if_pos hc2]
        · rw [if_neg hc2]

mutual

theorem schemaOf_defs_mono :
    ∀ (t : TypeDesc) (defs : List (String × Schema)) (x : String × Schema),
    x ∈ defs → x ∈ (schemaOf t defs).2
  | .strT, _, _, hx => hx
  | .strSub _, _, _, hx => hx
  | .prim _, _, _, hx => hx
  | .literal _, _, _, hx => hx
  | .annotated i, defs, x, hx => schemaOf_defs_mono i defs x hx
  | .requiredW i, defs, x, hx => schemaOf_defs_mono i defs x hx
  | .notRequiredW i, defs, x, hx => schemaOf_defs_mono i defs x hx
  | .listOf e, defs, x, hx => schemaOf_defs_mono e defs x hx
  | .jsonOf i, defs, x, hx => schemaOf_defs_mono i defs x hx
  | .named n fields, defs, x, hx => by
      rw [schemaOf]
      by_cases hc : (defs.map Prod.fst).contains n
      · rw [if_pos hc]
        exact hx
      · rw [if_neg hc]
        cases hsf : schemaOfFields fields defs with
        | mk props d =>
            dsimp only
            have hd : x ∈ d := by
              have h2 := schemaOfFields_defs_mono fields defs x hx
              rw [hsf] at h2
              exact h2
            by_cases hc2 : (d.map Prod.fst).contains n
            · rw [if_pos hc2]
              exact hd
            · rw [if_neg hc2]
              exact List.mem_append_left _ hd

theorem schemaOfFields_defs_mono :
    ∀ (fs : List (String × TypeDesc)) (defs : List (String × Schema))
      (x : String × Schema),
    x ∈ defs → x ∈ (schemaOfFields fs defs).2
  | [], _, _, hx => hx
  | (_, t) :: rest, defs, x, hx => by
      rw [schemaOfFields]
      cases hs1 : schemaOf t defs with
      | mk s d1 =>
          dsimp only
          have h1 : x ∈ d1 := by
            have h2 := schemaOf_defs_mono t defs x hx
            rw [hs1] at h2
            exact h2
          have h3 := schemaOfFields_defs_mono rest d1 x h1
          cases hs2 : schemaOfFields rest d1 with
          | mk ss d2 =>
              rw [hs2] at h3
              exact h3

end

mutual

theorem schemaOf_defs_nodup :
    ∀ (t : TypeDesc) (defs : List (String × Schema)),
    (defs.map Prod.fst).Nodup → ((schemaOf t defs).2.map Prod.fst).Nodup
  | .strT, _, h => h
  | .strSub _, _, h => h
  | .prim _, _, h => h
  | .literal _, _, h => h
  | .annotated i, defs, h => schemaOf_defs_nodup i defs h
  | .requiredW i, defs, h => schemaOf_defs_nodup i defs h
  | .notRequiredW i, defs, h => schemaOf_defs_nodup i defs h
  | .listOf e, defs, h => schemaOf_defs_nodup e defs h
  | .jsonOf i, defs, h => schemaOf_defs_nodup i defs h
  | .named n fields, defs, h => by
      rw [schemaOf]
      by_cases hc : (defs.map Prod.fst).contains n
      · rw [if_pos hc]
        exact h
      · rw [if_neg hc]
        cases hsf : schemaOfFields fields defs with
        | mk props d =>
            dsimp only
            have hd : ((d.map Prod.fst)).Nodup := by
              have h2 := schemaOfFields_defs_nodup fields defs h
              rw [hsf] at h2
              exact h2
            by_cases hc2 : (d.map Prod.fst).contains n
            · rw [if_pos hc2]
              exact hd
            · rw [if_neg hc2]
              rw [List.map_append]
              refine List.Nodup.append hd (by simp) ?_
              intro a ha hb
              simp only [List.map_cons, List.map_nil, List.mem_singleton] at hb
              subst hb
              exact hc2 (by simpa using ha)

theorem schemaOfFields_defs_nodup :
    ∀ (fs : List (String × TypeDesc)) (defs : List (String × Schema)),
    (defs.map Prod.fst).Nodup → ((schemaOfFields fs defs).2.map Prod.fst).Nodup
  | [], _, h => h
  | (_, t) :: rest, defs, h => by
      rw [schemaOfFields]
      cases hs1 : schemaOf t defs with
      | mk s d1 =>
          dsimp only
          have h1 : ((d1.map Prod.fst)).Nodup := by
            have h2 := schemaOf_defs_nodup t defs h
            rw [hs1] at h2
            exact h2
          have h3 := schemaOfFields_defs_nodup rest d1 h1
          cases hs2 : schemaOfFields rest d1 with
          | mk ss d2 =>
              rw [hs2] at h3
              exact h3

end

theorem schemaOf_named_mem (n : String) (flds : List (String × TypeDesc))
    (defs : List (String × Schema)) :
    ∃ sc, (n, sc) ∈ (schemaOf (.named n flds) defs).2 := by
  rw [schemaOf]
  by_cases hc : (defs.map Prod.fst).contains n
  · rw [if_pos hc]
    have hn : n ∈ defs.map Prod.fst := by simpa using hc
    obtain ⟨x, hx, hfe⟩ := List.mem_map.mp hn
    refine ⟨x.2, ?_⟩
    have hx2 : (x.1, x.2) ∈ defs := by
      rw [Prod.mk.eta]
      exact hx
    rw [hfe] at hx2
    exact hx2
  · rw [if_neg hc]
    cases hsf : schemaOfFields flds defs with
    | mk props d =>
        dsimp only
        by_cases hc2 : (d.map Prod.fst).contains n
        · rw [if_pos hc2]
          have hn : n ∈ d.map Prod.fst := by simpa using hc2
          obtain ⟨x, hx, hfe⟩ := List.mem_map.mp hn
          refine ⟨x.2, ?_⟩
          have hx2 : (x.1, x.2) ∈ d := by
            rw [Prod.mk.eta]
            exact hx
          rw [hfe] at hx2
          exact hx2
        · rw [if_neg hc2]
          exact ⟨_, List.mem_append_right _ (List.mem_cons_self _ _)⟩

theorem jsonSchemasAux_defs_mono :
    ∀ (models : List ModelTriple) (elems : List ((MKey × Mode) × Schema))
      (defs : List (String × Schema)) (x : String × Schema),
    x ∈ defs → x ∈ (jsonSchemasAux models elems defs).2 := by
  intro models
  induction models with
  | nil =>
      intro elems defs x hx
      exact hx
  | cons hd tl ih =>
      intro elems defs x hx
      obtain ⟨k0, m0, t0⟩ := hd
      cases hsd : schemaOf t0 defs with
      | mk s0 defs0 =>
          rw [jsonSchemasAux, hsd]
          refine ih _ _ x ?_
          have h2 := schemaOf_defs_mono t0 defs x hx
          rw [hsd] at h2
          exact h2

theorem jsonSchemasAux_defs_nodup :
    ∀ (models : List ModelTriple) (elems : List ((MKey × Mode) × Schema))
      (defs : List (String × Schema)),
    (defs.map Prod.fst).Nodup →
    ((jsonSchemasAux models elems defs).2.map Prod.fst).Nodup := by
  intro models
  induction models with
  | nil =>
      intro elems defs h
      exact h
  | cons hd tl ih =>
      intro elems defs h
      obtain ⟨k0, m0, t0⟩ := hd
      cases hsd : schemaOf t0 defs with
      | mk s0 defs0 =>
          rw [jsonSchemasAux, hsd]
          refine ih _ _ ?_
          have h2 := schemaOf_defs_nodup t0 defs h
          rw [hsd] at h2
          exact h2

theorem jsonSchemasAux_named_def_mem :
    ∀ (models : List ModelTriple) (elems : List ((MKey × Mode) × Schema))
      (defs : List (String × Schema)) (K : MKey) (m : Mode) (n : String)
      (fl : List (String × TypeDesc)),
    ((K, m, TypeDesc.named n fl) : ModelTriple) ∈ models →
    ∃ sc, (n, sc) ∈ (jsonSchemasAux models elems defs).2 := by
  intro models
  induction models with
  | nil =>
      intro elems defs K m n fl h
      cases h
  | cons hd tl ih =>
      intro elems defs K m n fl h
      obtain ⟨k0, m0, t0⟩ := hd
      rcases List.mem_cons.mp h with heq | hmem2
      · have ht : TypeDesc.named n fl = t0 := congrArg (fun x => x.2.2) heq
        cases hsd : schemaOf t0 defs with
        | mk s0 defs0 =>
            rw [jsonSchemasAux, hsd]
            obtain ⟨sc, hsc⟩ := schemaOf_named_mem n fl defs
            rw [ht, hsd] at hsc
            exact ⟨sc, jsonSchemasAux_defs_mono tl _ _ _ hsc⟩
      · cases hsd : schemaOf t0 defs with
        | mk s0 defs0 =>
            rw [jsonSchemasAux, hsd]
            exact ih _ _ K m n fl hmem2

theorem jsonSchemasAux_mem_origin :
    ∀ (models : List ModelTriple) (elems : List ((MKey × Mode) × Schema))
      (defs : List (String × Schema)) (x : (MKey × Mode) × Schema),
    x ∈ (jsonSchemasAux models elems defs).1 →
    x ∈ elems ∨ ∃ t d2, ((x.1.1, x.1.2, t) : ModelTriple) ∈ models ∧
      x.2 = (schemaOf t d2).1 := by
  intro models
  induction models with
  | nil =>
      intro elems defs x hx
      exact Or.inl hx
  | cons hd tl ih =>
      intro elems defs x hx
      obtain ⟨k0, m0, t0⟩ := hd
      cases hsd : schemaOf t0 defs with
      | mk s0 defs0 =>
          rw [jsonSchemasAux, hsd] at hx
          rcases ih _ _ x hx with hx1 | hx1
          · rcases mem_assocSet hx1 with heq | hx2
            · refine Or.inr ⟨t0, defs, ?_, ?_⟩
              · have hk : x.1 = (k0, m0) := congrArg Prod.fst heq
                rw [hk]
                exact List.mem_cons_self _ _
              · have hs : x.2 = s0 := congrArg Prod.snd heq
                rw [hs, hsd]
            · exact Or.inl hx2
          · obtain ⟨t, d2, hmem, hval⟩ := hx1
            exact Or.inr ⟨t, d2, List.mem_cons_of_mem _ hmem, hval⟩

theorem jsonSchemasAux_named_preserve :
    ∀ (models : List ModelTriple) (elems : List ((MKey × Mode) × Schema))
      (defs : List (String × Schema)) (K : MKey) (n : String),
    (∀ m t, ((K, m, t) : ModelTriple) ∈ models →
      m = Mode.serialization ∧ ∃ fl, t = TypeDesc.named n fl) →
    alookup elems (K, Mode.serialization) = some (.ref n) →
    alookup (jsonSchemasAux models elems defs).1 (K, Mode.serialization) =
      some (.ref n) := by
  intro models
  induction models with
  | nil =>
      intro elems defs K n huniq h
      exact h
  | cons hd tl ih =>
      intro elems defs K n huniq h
      obtain ⟨k0, m0, t0⟩ := hd
      cases hsd : schemaOf t0 defs with
      | mk s0 defs0 =>
          rw [jsonSchemasAux, hsd]
          have huniq2 : ∀ m t, ((K, m, t) : ModelTriple) ∈ tl →
              m = Mode.serialization ∧ ∃ fl, t = TypeDesc.named n fl :=
            fun m t hm => huniq m t (List.mem_cons_of_mem _ hm)
          by_cases hk : k0 = K
          · subst hk
            obtain ⟨hm0, fl0, ht0⟩ := huniq m0 t0 (List.mem_cons_self _ _)
            subst hm0
            have hs0 : s0 = .ref n := by
              have h2 := schemaOf_named_ref n fl0 defs
              rw [← ht0, hsd] at h2
              exact h2
            refine ih _ _ k0 n huniq2 ?_
            rw [hs0, alookup_assocSet_self]
          · refine ih _ _ K n huniq2 ?_
            rw [alookup_assocSet_ne]
            · exact h
            · intro hkk
              exact hk (congrArg Prod.fst hkk).symm

theorem jsonSchemasAux_named_lookup :
    ∀ (models : List ModelTriple) (elems : List ((MKey × Mode) × Schema))
      (defs : List (String × Schema)) (K : MKey) (n : String)
      (fl : List (String × TypeDesc)),
    (∀ m t, ((K, m, t) : ModelTriple) ∈ models →
      m = Mode.serialization ∧ ∃ fl2, t = TypeDesc.named n fl2) →
    ((K, Mode.serialization, TypeDesc.named n fl) : ModelTriple) ∈ models →
    alookup (jsonSchemasAux models elems defs).1 (K, Mode.serialization) =
      some (.ref n) := by
  intro models
  induction models with
  | nil =>
      intro elems defs K n fl huniq hmem
      cases hmem
  | cons hd tl ih =>
      intro elems defs K n fl huniq hmem
      obtain ⟨k0, m0, t0⟩ := hd
      have huniq2 : ∀ m t, ((K, m, t) : ModelTriple) ∈ tl →
          m = Mode.serialization ∧ ∃ fl2, t = TypeDesc.named n fl2 :=
        fun m t hm => huniq m t (List.mem_cons_of_mem _ hm)
      cases hsd : schemaOf t0 defs with
      | mk s0 defs0 =>
          rw [jsonSchemasAux, hsd]
          by_cases hk : k0 = K
          · subst hk
            obtain ⟨hm0, fl0, ht0⟩ := huniq m0 t0 (List.mem_cons_self _ _)
            subst hm0
            have hs0 : s0 = .ref n := by
              have h2 := schemaOf_named_ref n fl0 defs
              rw [← ht0, hsd] at h2
              exact h2
            refine jsonSchemasAux_named_preserve tl _ _ k0 n huniq2 ?_
            rw [hs0, alookup_assocSet_self]
          · rcases List.mem_cons.mp hmem with heq | hmem2
            · exact absurd (congrArg (fun x => x.1) heq).symm hk
            · exact ih _ _ K n fl huniq2 hmem2

def respObjOf (reason : String) (s : Schema) : ResponseObject :=
  { description := reason, contentType := "application/json", schema := s }

theorem spliceOne_shape (paths : List (String × PathObject)) (km : MKey × Mode)
    (s : Schema) (paths2 : List (String × PathObject))
    (h : spliceOne paths km s = .ok paths2) :
    ∃ pd0 op0 op',
      alookup paths km.1.path = some pd0 ∧
      alookup pd0.ops km.1.method = some op0 ∧
      paths2 = assocSet paths km.1.path { pd0 with ops := assocSet pd0.ops km.1.method op' } ∧
      ((∃ c2 reason, km.1.disc = KeyDisc.response c2 ∧
          httpStatusPhrase c2 = some reason ∧
          op' = { op0 with responses := assocSet op0.responses c2 (respObjOf reason s) }) ∨
        (op'.responses = op0.responses ∧ ∀ c2, km.1.disc ≠ KeyDisc.response c2)) := by
  rw [spliceOne] at h
  cases hl : alookup paths km.1.path with
  | none => rw [hl] at h; cases h
  | some pd =>
      rw [hl] at h
      dsimp only at h
      cases hol : alookup pd.ops km.1.method with
      | none => rw [hol] at h; cases h
      | some op =>
          rw [hol] at h
          dsimp only at h
          cases hdisc : km.1.disc with
          | reqBody =>
              rw [hdisc] at h
              dsimp only at h
              cases h
              exact ⟨pd, op, _, rfl, hol, rfl, Or.inr ⟨rfl, fun c2 hh => nomatch hh⟩⟩
          | param nm rq =>
              rw [hdisc] at h
              dsimp only at h
              cases h
              exact ⟨pd, op, _, rfl, hol, rfl, Or.inr ⟨rfl, fun c2 hh => nomatch hh⟩⟩
          | response code =>
              rw [hdisc] at h
              dsimp only at h
              cases hph : httpStatusPhrase code with
              | none => rw [hph] at h; cases h
              | some reason =>
                  rw [hph] at h
                  dsimp only at h
                  cases h
                  exact ⟨pd, op, _, rfl, hol, rfl,
                    Or.inl ⟨code, reason, rfl, hph, rfl⟩⟩

theorem splice_resp_preserve :
    ∀ (elems : List ((MKey × Mode) × Schema)) (paths : List (String × PathObject))
      (p μ : String) (c : Nat) (s : Schema) (reason : String)
      (pd : PathObject) (op : OperationObject) (res : List (String × PathObject)),
    splice paths elems = .ok res →
    (∀ km2 s2, ((km2, s2) : (MKey × Mode) × Schema) ∈ elems →
      km2.1 = ⟨p, μ, KeyDisc.response c⟩ → km2.2 = Mode.serialization ∧ s2 = s) →
    httpStatusPhrase c = some reason →
    alookup paths p = some pd →
    alookup pd.ops μ = some op →
    alookup op.responses c = some (respObjOf reason s) →
    ∃ pd2 op2, alookup res p = some pd2 ∧ alookup pd2.ops μ = some op2 ∧
      alookup op2.responses c = some (respObjOf reason s) := by
  intro elems
  induction elems with
  | nil =>
      intro paths p μ c s reason pd op res h hsame hph hp hop hresp
      cases h
      exact ⟨pd, op, hp, hop, hresp⟩
  | cons hd tl ih =>
      intro paths p μ c s reason pd op res h hsame hph hp hop hresp
      obtain ⟨km0, s0⟩ := hd
      rw [splice] at h
      cases hso : spliceOne paths km0 s0 with
      | error e => rw [hso] at h; cases h
      | ok paths1 =>
          rw [hso] at h
          obtain ⟨pd0, op0, op', hl0, hol0, hpaths1, hrel⟩ :=
            spliceOne_shape _ _ _ _ hso
          have hsame2 : ∀ km2 s2, ((km2, s2) : (MKey × Mode) × Schema) ∈ tl →
              km2.1 = ⟨p, μ, KeyDisc.response c⟩ →
              km2.2 = Mode.serialization ∧ s2 = s :=
            fun km2 s2 hm => hsame km2 s2 (List.mem_cons_of_mem _ hm)
          by_cases hpp : km0.1.path = p
          · have hpd0 : pd0 = pd := by
              rw [hpp] at hl0
              exact Option.some.inj (hl0.symm.trans hp)
            subst hpd0
            by_cases hmm : km0.1.method = μ
            · have hop0 : op0 = op := by
                rw [hmm] at hol0
                exact Option.some.inj (hol0.symm.trans hop)
              subst hop0
              have hrespNew : alookup op'.responses c = some (respObjOf reason s) := by
                rcases hrel with ⟨c2, reason2, hdisc, hph2, hopEq⟩ | ⟨hpres, -⟩
                · by_cases hcc : c2 = c
                  · have hkey : km0.1 = (⟨p, μ, KeyDisc.response c⟩ : MKey) := by
                      have h1 : km0.1 =
                          (⟨km0.1.path, km0.1.method, km0.1.disc⟩ : MKey) := rfl
                      rw [h1, hpp, hmm, hdisc, hcc]
                    obtain ⟨-, hs0⟩ := hsame km0 s0 (List.mem_cons_self _ _) hkey
                    have hr2 : reason2 = reason := by
                      rw [hcc] at hph2
                      exact Option.some.inj (hph2.symm.trans hph)
                    rw [hopEq, hcc, hs0, hr2]
                    dsimp only
                    rw [alookup_assocSet_self]
                  · rw [hopEq]
                    dsimp only
                    rw [alookup_assocSet_ne _ _ _ _ (fun hh => hcc hh.symm)]
                    exact hresp
                · rw [hpres]
                  exact hresp
              refine ih paths1 p μ c s reason
                { pd0 with ops := assocSet pd0.ops km0.1.method op' } op' res h
                hsame2 hph ?_ ?_ hrespNew
              · rw [hpaths1, hpp, alookup_assocSet_self]
              · dsimp only
                rw [hmm, alookup_assocSet_self]
            · refine ih paths1 p μ c s reason
                { pd0 with ops := assocSet pd0.ops km0.1.method op' } op res h
                hsame2 hph ?_ ?_ hresp
              · rw [hpaths1, hpp, alookup_assocSet_self]
              · dsimp only
                rw [alookup_assocSet_ne _ _ _ _ (fun hh => hmm hh.symm)]
                exact hop
          · refine ih paths1 p μ c s reason pd op res h hsame2 hph ?_ hop hresp
            rw [hpaths1, alookup_assocSet_ne _ _ _ _ (fun hh => hpp hh.symm)]
            exact hp

theorem splice_resp_set :
    ∀ (elems : List ((MKey × Mode) × Schema)) (paths : List (String × PathObject))
      (p μ : String) (c : Nat) (s : Schema) (reason : String)
      (res : List (String × PathObject)),
    splice paths elems = .ok res →
    (∀ km2 s2, ((km2, s2) : (MKey × Mode) × Schema) ∈ elems →
      km2.1 = ⟨p, μ, KeyDisc.response c⟩ → km2.2 = Mode.serialization ∧ s2 = s) →
    (((⟨p, μ, KeyDisc.response c⟩ : MKey), Mode.serialization), s) ∈ elems →
    httpStatusPhrase c = some reason →
    ∃ pd2 op2, alookup res p = some pd2 ∧ alookup pd2.ops μ = some op2 ∧
      alookup op2.responses c = some (respObjOf reason s) := by
  intro elems
  induction elems with
  | nil =>
      intro paths p μ c s reason res h hsame hmem
      cases hmem
  | cons hd tl ih =>
      intro paths p μ c s reason res h hsame hmem hph
      obtain ⟨km0, s0⟩ := hd
      rw [splice] at h
      cases hso : spliceOne paths km0 s0 with
      | error e => rw [hso] at h; cases h
      | ok paths1 =>
          rw [hso] at h
          have hsame2 : ∀ km2 s2, ((km2, s2) : (MKey × Mode) × Schema) ∈ tl →
              km2.1 = ⟨p, μ, KeyDisc.response c⟩ →
              km2.2 = Mode.serialization ∧ s2 = s :=
            fun km2 s2 hm => hsame km2 s2 (List.mem_cons_of_mem _ hm)
          by_cases hk : km0.1 = (⟨p, μ, KeyDisc.response c⟩ : MKey)
          · obtain ⟨-, hs0⟩ := hsame km0 s0 (List.mem_cons_self _ _) hk
            obtain ⟨pd0, op0, op', hl0, hol0, hpaths1, hrel⟩ :=
              spliceOne_shape _ _ _ _ hso
            rcases hrel with ⟨c2, reason2, hdisc, hph2, hopEq⟩ | ⟨-, hnotresp⟩
            · have hc2 : c2 = c :=
                KeyDisc.response.inj (hdisc.symm.trans (congrArg MKey.disc hk))
              have hr2 : reason2 = reason := by
                rw [hc2] at hph2
                exact Option.some.inj (hph2.symm.trans hph)
              have hpath : km0.1.path = p := by rw [hk]
              have hmeth : km0.1.method = μ := by rw [hk]
              have hp1 : alookup paths1 p =
                  some { pd0 with ops := assocSet pd0.ops km0.1.method op' } := by
                rw [hpaths1, hpath, alookup_assocSet_self]
              have hop1 : alookup
                  ({ pd0 with ops := assocSet pd0.ops km0.1.method op' } : PathObject).ops μ
                  = some op' := by
                dsimp only
                rw [hmeth, alookup_assocSet_self]
              have hresp1 : alookup op'.responses c = some (respObjOf reason s) := by
                rw [hopEq, hc2, hs0, hr2]
                dsimp only
                rw [alookup_assocSet_self]
              exact splice_resp_preserve tl paths1 p μ c s reason _ op' res h
                hsame2 hph hp1 hop1 hresp1
            · have hdr : km0.1.disc = KeyDisc.response c := by rw [hk]
              exact absurd hdr (hnotresp c)
          · rcases List.mem_cons.mp hmem with heq | hmem2
            · exact absurd (congrArg (fun x => x.1.1) heq).symm hk
            · exact ih paths1 p μ c s reason res h hsame2 hmem2 hph

theorem alookup_some_not_empty {κ α : Type} [DecidableEq κ]
    (xs : List (κ × α)) (k : κ) (v : α) (h : alookup xs k = some v) :
    xs.isEmpty = false := by
  cases xs with
  | nil => exact Option.noConfusion h
  | cons hd tl => rfl

theorem queryFields_param_keys :
    ∀ (path method : String) (fs : List QField) (ms : List ModelTriple)
      (td : List (String × Bool × TypeDesc)),
    queryFields path method fs = .ok (ms, td) →
    ∀ x : ModelTriple, x ∈ ms → ∃ nm rq, x.1.disc = KeyDisc.param nm rq := by
  intro path method fs
  induction fs with
  | nil =>
      intro ms td h x hx
      rw [queryFields] at h
      cases h
      cases hx
  | cons f rest ih =>
      intro ms td h x hx
      rw [queryFields] at h
      cases hfa : fieldAnnType f.ann with
      | error e => rw [hfa] at h; cases h
      | ok a =>
          rw [hfa] at h
          dsimp only at h
          cases hqf : queryFields path method rest with
          | error e => rw [hqf] at h; cases h
          | ok pr =>
              obtain ⟨ms0, td0⟩ := pr
              rw [hqf] at h
              dsimp only at h
              cases h
              rcases List.mem_cons.mp hx with heq | hmem
              · exact ⟨f.name, f.required, by rw [heq]⟩
              · exact ih ms0 td0 hqf x hmem

theorem processMeths_resp_origin (path rm opId : String) :
    ∀ (meths : List (Option String × EndpointData)) (pd : PathObject)
      (ms : List ModelTriple)
      (out : List (Option String × EndpointData) × PathObject × List ModelTriple),
    processMeths path rm opId meths pd ms = .ok out →
    ∀ x : ModelTriple, x ∈ out.2.2 → ∀ c : Nat, x.1.disc = KeyDisc.response c →
    x ∈ ms ∨ ∃ mk d, ((mk, d) : Option String × EndpointData) ∈ meths ∧
      x.1.path = path ∧ x.1.method = normMeth mk rm ∧
      x.2.1 = Mode.serialization ∧ (c, x.2.2) ∈ d.resps := by
  intro meths
  induction meths with
  | nil =>
      intro pd ms out h x hx c hdisc
      cases h
      exact Or.inl hx
  | cons hd tl ih =>
      intro pd ms out h x hx c hdisc
      obtain ⟨mk0, d0⟩ := hd
      rw [processMeths] at h
      by_cases hh : normMeth mk0 rm = "head"
      · rw [if_pos hh] at h
        cases hrec : processMeths path rm opId tl pd ms with
        | error e => rw [hrec] at h; cases h
        | ok out2 =>
            obtain ⟨rest2, pd2, ms2⟩ := out2
            rw [hrec] at h
            dsimp only at h
            cases h
            dsimp only at hx
            rcases ih pd ms (rest2, pd2, ms2) hrec x hx c hdisc with
              h1 | ⟨mk, d, hmem, hrest⟩
            · exact Or.inl h1
            · exact Or.inr ⟨mk, d, List.mem_cons_of_mem _ hmem, hrest⟩
      · rw [if_neg hh] at h
        by_cases hv : isOpenapiMethod (normMeth mk0 rm) = false
        · rw [if_pos hv] at h
          cases h
        · rw [if_neg hv] at h
          cases hqs : queryStep path (normMeth mk0 rm) d0 with
          | error e => rw [hqs] at h; cases h
          | ok pr =>
              obtain ⟨d3, qms⟩ := pr
              rw [hqs] at h
              dsimp only at h
              cases hrec : processMeths path rm opId tl
                  (opsSet pd (normMeth mk0 rm) (mkOperation opId d0))
                  ((ms ++ bodyTriples path (normMeth mk0 rm) d0) ++ qms
                    ++ respTriples path (normMeth mk0 rm) d0) with
              | error e => rw [hrec] at h; cases h
              | ok out2 =>
                  obtain ⟨rest2, pd2, ms2⟩ := out2
                  rw [hrec] at h
                  dsimp only at h
                  cases h
                  dsimp only at hx
                  rcases ih _ _ _ hrec x hx c hdisc with h1 | ⟨mk, d, hmem, hrest⟩
                  · rcases List.mem_append.mp h1 with h2 | h2
                    · rcases List.mem_append.mp h2 with h3 | h3
                      · rcases List.mem_append.mp h3 with h4 | h4
                        · exact Or.inl h4
                        · exfalso
                          rw [bodyTriples] at h4
                          cases hb : d0.body with
                          | none => rw [hb] at h4; cases h4
                          | some b =>
                              rw [hb] at h4
                              have heq := List.mem_singleton.mp h4
                              have hd2 : x.1.disc = KeyDisc.reqBody := by rw [heq]
                              rw [hdisc] at hd2
                              cases hd2
                      · exfalso
                        rw [queryStep] at hqs
                        cases hqr : d0.queryRaw with
                        | none =>
                            rw [hqr] at hqs
                            cases hqs
                            cases h3
                        | some qr =>
                            rw [hqr] at hqs
                            dsimp only at hqs
                            cases hqf : queryFields path (normMeth mk0 rm) qr.fields with
                            | error e => rw [hqf] at hqs; cases hqs
                            | ok pr2 =>
                                obtain ⟨ms4, td4⟩ := pr2
                                rw [hqf] at hqs
                                dsimp only at hqs
                                cases hqs
                                obtain ⟨nm, rq, hpar⟩ :=
                                  queryFields_param_keys path (normMeth mk0 rm)
                                    qr.fields _ _ hqf x h3
                                rw [hdisc] at hpar
                                cases hpar
                    · rw [respTriples] at h2
                      obtain ⟨ct, hct, heq⟩ := List.mem_map.mp h2
                      refine Or.inr ⟨mk0, d0, List.mem_cons_self _ _, ?_, ?_, ?_, ?_⟩
                      · rw [← heq]
                      · rw [← heq]
                      · rw [← heq]
                      · have hc : ct.1 = c := by
                          have h4 : x.1.disc = KeyDisc.response ct.1 := by rw [← heq]
                          rw [hdisc] at h4
                          exact (KeyDisc.response.inj h4).symm
                        have h5 : x.2.2 = ct.2 := by rw [← heq]
                        rw [h5, ← hc, Prod.mk.eta]
                        exact hct
                  · exact Or.inr ⟨mk, d, List.mem_cons_of_mem _ hmem, hrest⟩

theorem processRoutes_resp_origin :
    ∀ (routes : List Route) (reg : Registry) (paths : List (String × PathObject))
      (ms : List ModelTriple)
      (out : Registry × List (String × PathObject) × List ModelTriple),
    processRoutes reg routes paths ms = .ok out →
    ∀ x : ModelTriple, x ∈ out.2.2 → ∀ c : Nat, x.1.disc = KeyDisc.response c →
    x ∈ ms ∨ ∃ r ep mk d, r ∈ routes ∧
      alookup (eraseR reg) r.handlerId = some ep ∧
      ((mk, d) : Option String × EndpointData) ∈ ep.meths ∧
      x.1.path = r.path ∧ x.1.method = normMeth mk r.method ∧
      x.2.1 = Mode.serialization ∧ (c, x.2.2) ∈ d.resps := by
  intro routes
  induction routes with
  | nil =>
      intro reg paths ms out h x hx c hdisc
      cases h
      exact Or.inl hx
  | cons r rs ih =>
      intro reg paths ms out h x hx c hdisc
      rw [processRoutes] at h
      cases hl : regLookup reg r.handlerId with
      | none =>
          rw [hl] at h
          rcases ih _ _ _ _ h x hx c hdisc with
            h1 | ⟨r2, ep2, mk, d, hr2, hlook, hrest⟩
          · exact Or.inl h1
          · exact Or.inr ⟨r2, ep2, mk, d, List.mem_cons_of_mem _ hr2, hlook, hrest⟩
      | some ep =>
          rw [hl] at h
          dsimp only at h
          cases hpm : processMeths r.path r.method r.handlerName ep.meths
              (pathWithDocs (pathBase paths r.path) ep) ms with
          | error e => rw [hpm] at h; cases h
          | ok out2 =>
              obtain ⟨meths2, pd2, ms2⟩ := out2
              rw [hpm] at h
              dsimp only at h
              have hmeq : eraseMeths meths2 = eraseMeths ep.meths := by
                have h2 := processMeths_ok_meths r.path r.method r.handlerName
                  ep.meths (pathWithDocs (pathBase paths r.path) ep) ms
                  (meths2, pd2, ms2) hpm
                have h3 : meths2 = ep.meths.map (updEntry r.path r.method) := h2
                rw [h3]
                exact eraseMeths_map_updEntry r.path r.method ep.meths
              have her : eraseR (assocSet reg r.handlerId { ep with meths := meths2 })
                  = eraseR reg :=
                eraseR_step reg r.handlerId ep meths2 hl hmeq
              rcases ih _ _ _ _ h x hx c hdisc with
                h1 | ⟨r2, ep2, mk, d, hr2, hlook, hrest⟩
              · rcases processMeths_resp_origin r.path r.method r.handlerName
                    ep.meths _ ms (meths2, pd2, ms2) hpm x h1 c hdisc with
                  h2 | ⟨mk, d, hmem, hp, hm, hser, hcr⟩
                · exact Or.inl h2
                · refine Or.inr ⟨r, eraseE ep, mk, eraseD d,
                    List.mem_cons_self _ _, ?_, ?_, hp, hm, hser, hcr⟩
                  · rw [regLookup_eraseR, hl]
                    rfl
                  · exact List.mem_map_of_mem (fun md => (md.1, eraseD md.2)) hmem
              · rw [her] at hlook
                exact Or.inr ⟨r2, ep2, mk, d, List.mem_cons_of_mem _ hr2, hlook, hrest⟩

/-- C3: for two registered endpoints (distinct paths, one method entry each)
whose response types resolve to the same named composite type `n`, a
successful document assembly emits exactly one `components.schemas` entry
for `n` (its key occurs once in the component dictionary), and both
operations' response fragments hold the `$ref` schema `Schema.ref n` to that
shared entry instead of an inline schema. -/
theorem c3_shared_named_component_deduplicated (reg : Registry) (api : OpenApi)
    (r1 r2 : Route) (e1 e2 : Endpoint) (mk1 mk2 : Option String)
    (d1 d2 : EndpointData) (c1 c2 : Nat) (n : String)
    (fl1 fl2 : List (String × TypeDesc)) (api2 : OpenApi) (reg2 : Registry)
    (hne : r1.path ≠ r2.path)
    (h1 : alookup (eraseR reg) r1.handlerId = some e1)
    (h2 : alookup (eraseR reg) r2.handlerId = some e2)
    (hm1 : e1.meths = [(mk1, d1)])
    (hm2 : e2.meths = [(mk2, d2)])
    (hr1 : d1.resps = [(c1, TypeDesc.named n fl1)])
    (hr2 : d2.resps = [(c2, TypeDesc.named n fl2)])
    (hh1 : normMeth mk1 r1.method ≠ "head")
    (hh2 : normMeth mk2 r2.method ≠ "head")
    (hrun : onStartup reg api [r1, r2] = (api2, .ok reg2)) :
    ∃ defs ps,
      api2.components = some defs ∧
      (defs.map Prod.fst).count n = 1 ∧
      api2.paths = some ps ∧
      (∃ pd op reason, alookup ps r1.path = some pd ∧
        alookup pd.ops (normMeth mk1 r1.method) = some op ∧
        httpStatusPhrase c1 = some reason ∧
        alookup op.responses c1 = some (respObjOf reason (Schema.ref n))) ∧
      (∃ pd op reason, alookup ps r2.path = some pd ∧
        alookup pd.ops (normMeth mk2 r2.method) = some op ∧
        httpStatusPhrase c2 = some reason ∧
        alookup op.responses c2 = some (respObjOf reason (Schema.ref n))) := by
  rw [onStartup] at hrun
  cases hpr : processRoutes reg [r1, r2] [] [] with
  | error e =>
      rw [hpr] at hrun
      exact Except.noConfusion (congrArg Prod.snd hrun)
  | ok tri =>
      obtain ⟨reg3, paths, ms⟩ := tri
      rw [hpr] at hrun
      dsimp only at hrun
      cases hsp : splice paths (jsonSchemas ms).1 with
      | error e =>
          rw [hsp] at hrun
          exact Except.noConfusion (congrArg Prod.snd hrun)
      | ok paths2 =>
          rw [hsp] at hrun
          dsimp only at hrun
          have hapi : api2 = withPaths (withComponents api (jsonSchemas ms).2) paths2 :=
            (congrArg Prod.fst hrun).symm
          have hmem1 : ((⟨r1.path, normMeth mk1 r1.method, .response c1⟩ : MKey),
              Mode.serialization, TypeDesc.named n fl1) ∈ ms :=
            processRoutes_resp_mem [r1, r2] reg [] [] (reg3, paths, ms)
              r1 e1 mk1 d1 c1 (TypeDesc.named n fl1) hpr (List.mem_cons_self _ _) h1
              (by rw [hm1]; exact List.mem_cons_self _ _) hh1
              (by rw [hr1]; exact List.mem_cons_self _ _)
          have hmem2 : ((⟨r2.path, normMeth mk2 r2.method, .response c2⟩ : MKey),
              Mode.serialization, TypeDesc.named n fl2) ∈ ms :=
            processRoutes_resp_mem [r1, r2] reg [] [] (reg3, paths, ms)
              r2 e2 mk2 d2 c2 (TypeDesc.named n fl2) hpr
              (List.mem_cons_of_mem _ (List.mem_cons_self _ _)) h2
              (by rw [hm2]; exact List.mem_cons_self _ _) hh2
              (by rw [hr2]; exact List.mem_cons_self _ _)
          have huniq1 : ∀ m t,
              ((⟨r1.path, normMeth mk1 r1.method, .response c1⟩ : MKey), m, t) ∈ ms →
              m = Mode.serialization ∧ ∃ fl0, t = TypeDesc.named n fl0 := by
            intro m t hmt
            rcases processRoutes_resp_origin [r1, r2] reg [] [] (reg3, paths, ms) hpr
                (⟨r1.path, normMeth mk1 r1.method, .response c1⟩, m, t) hmt c1 rfl with
              hk | ⟨r, ep, mk, d, hrmem, hlook, hmm, hp, hmeth, hser, hresp⟩
            · cases hk
            · dsimp only at hp hser hresp
              rcases List.mem_cons.mp hrmem with hreq | hrmem2
              · subst hreq
                have hep : e1 = ep := Option.some.inj (h1.symm.trans hlook)
                rw [← hep, hm1] at hmm
                have hmd := List.mem_singleton.mp hmm
                have hd : d = d1 := congrArg Prod.snd hmd
                rw [hd, hr1] at hresp
                have hct := List.mem_singleton.mp hresp
                exact ⟨hser, fl1, congrArg Prod.snd hct⟩
              · rcases List.mem_cons.mp hrmem2 with hreq | hrmem3
                · subst hreq
                  exact absurd hp hne
                · cases hrmem3
          have huniq2 : ∀ m t,
              ((⟨r2.path, normMeth mk2 r2.method, .response c2⟩ : MKey), m, t) ∈ ms →
              m = Mode.serialization ∧ ∃ fl0, t = TypeDesc.named n fl0 := by
            intro m t hmt
            rcases processRoutes_resp_origin [r1, r2] reg [] [] (reg3, paths, ms) hpr
                (⟨r2.path, normMeth mk2 r2.method, .response c2⟩, m, t) hmt c2 rfl with
              hk | ⟨r, ep, mk, d, hrmem, hlook, hmm, hp, hmeth, hser, hresp⟩
            · cases hk
            · dsimp only at hp hser hresp
              rcases List.mem_cons.mp hrmem with hreq | hrmem2
              · subst hreq
                exact absurd hp.symm hne
              · rcases List.mem_cons.mp hrmem2 with hreq | hrmem3
                · subst hreq
                  have hep : e2 = ep := Option.some.inj (h2.symm.trans hlook)
                  rw [← hep, hm2] at hmm
                  have hmd := List.mem_singleton.mp hmm
                  have hd : d = d2 := congrArg Prod.snd hmd
                  rw [hd, hr2] at hresp
                  have hct := List.mem_singleton.mp hresp
                  exact ⟨hser, fl2, congrArg Prod.snd hct⟩
                · cases hrmem3
          have helem1 : alookup (jsonSchemas ms).1
              ((⟨r1.path, normMeth mk1 r1.method, .response c1⟩ : MKey),
                Mode.serialization) = some (.ref n) :=
            jsonSchemasAux_named_lookup ms [] [] _ n fl1 huniq1 hmem1
          have helem2 : alookup (jsonSchemas ms).1
              ((⟨r2.path, normMeth mk2 r2.method, .response c2⟩ : MKey),
                Mode.serialization) = some (.ref n) :=
            jsonSchemasAux_named_lookup ms [] [] _ n fl2 huniq2 hmem2
          have hsame1 : ∀ km2 s2,
              ((km2, s2) : (MKey × Mode) × Schema) ∈ (jsonSchemas ms).1 →
              km2.1 = ⟨r1.path, normMeth mk1 r1.method, KeyDisc.response c1⟩ →
              km2.2 = Mode.serialization ∧ s2 = Schema.ref n := by
            intro km2 s2 hmem hk
            rcases jsonSchemasAux_mem_origin ms [] [] (km2, s2) hmem with
              hin | ⟨t, dd, hmm, hval⟩
            · cases hin
            · dsimp only at hmm hval
              rw [hk] at hmm
              obtain ⟨hser, fl0, ht⟩ := huniq1 km2.2 t hmm
              refine ⟨hser, ?_⟩
              have hval2 : s2 = (schemaOf t dd).1 := hval
              rw [ht] at hval2
              rw [hval2]
              exact schemaOf_named_ref n fl0 dd
          have hsame2 : ∀ km2 s2,
              ((km2, s2) : (MKey × Mode) × Schema) ∈ (jsonSchemas ms).1 →
              km2.1 = ⟨r2.path, normMeth mk2 r2.method, KeyDisc.response c2⟩ →
              km2.2 = Mode.serialization ∧ s2 = Schema.ref n := by
            intro km2 s2 hmem hk
            rcases jsonSchemasAux_mem_origin ms [] [] (km2, s2) hmem with
              hin | ⟨t, dd, hmm, hval⟩
            · cases hin
            · dsimp only at hmm hval
              rw [hk] at hmm
              obtain ⟨hser, fl0, ht⟩ := huniq2 km2.2 t hmm
              refine ⟨hser, ?_⟩
              have hval2 : s2 = (schemaOf t dd).1 := hval
              rw [ht] at hval2
              rw [hval2]
              exact schemaOf_named_ref n fl0 dd
          cases hph1 : httpStatusPhrase c1 with
          | none =>
              exact absurd hsp (splice_not_ok_of_badcode (jsonSchemas ms).1 paths
                _ Mode.serialization (.ref n) c1 (alookup_mem helem1) rfl hph1 paths2)
          | some reason1 =>
          cases hph2 : httpStatusPhrase c2 with
          | none =>
              exact absurd hsp (splice_not_ok_of_badcode (jsonSchemas ms).1 paths
                _ Mode.serialization (.ref n) c2 (alookup_mem helem2) rfl hph2 paths2)
          | some reason2 =>
              obtain ⟨pd1, op1, hP1, hO1, hR1⟩ :=
                splice_resp_set (jsonSchemas ms).1 paths r1.path
                  (normMeth mk1 r1.method) c1 (Schema.ref n) reason1 paths2 hsp
                  hsame1 (alookup_mem helem1) hph1
              obtain ⟨pd2, op2, hP2, hO2, hR2⟩ :=
                splice_resp_set (jsonSchemas ms).1 paths r2.path
                  (normMeth mk2 r2.method) c2 (Schema.ref n) reason2 paths2 hsp
                  hsame2 (alookup_mem helem2) hph2
              obtain ⟨sc, hsc⟩ :=
                jsonSchemasAux_named_def_mem ms [] []
                  ⟨r1.path, normMeth mk1 r1.method, .response c1⟩
                  Mode.serialization n fl1 hmem1
              have hnodup : (((jsonSchemas ms).2.map Prod.fst)).Nodup :=
                jsonSchemasAux_defs_nodup ms [] [] List.nodup_nil
              have hcount : ((jsonSchemas ms).2.map Prod.fst).count n = 1 :=
                List.count_eq_one_of_mem hnodup (List.mem_map_of_mem Prod.fst hsc)
              have hsc2 : (n, sc) ∈ (jsonSchemas ms).2 := hsc
              have hdne : (jsonSchemas ms).2.isEmpty = false := by
                cases hd : (jsonSchemas ms).2 with
                | nil => rw [hd] at hsc2; cases hsc2
                | cons a b => rfl
              have hpne : paths2.isEmpty = false :=
                alookup_some_not_empty paths2 r1.path pd1 hP1
              have hcomp : api2.components = some (jsonSchemas ms).2 := by
                rw [hapi, withPaths_components, withComponents_components, hdne]
                rfl
              have hpaths : api2.paths = some paths2 := by
                rw [hapi, withPaths_paths, hpne]
                rfl
              exact ⟨(jsonSchemas ms).2, paths2, hcomp, hcount, hpaths,
                ⟨pd1, op1, reason1, hP1, hO1, rfl, hR1⟩,
                ⟨pd2, op2, reason2, hP2, hO2, rfl, hR2⟩⟩

def c3SigA : HandlerSig :=
  { docstring := none, params := c2Params, queryAnn := none
    returnAnn := [{ payload := .named "Poll" [("id", .prim "int")], codeLit := some 200 }] }

def c3SigB : HandlerSig :=
  { docstring := none, params := c2Params, queryAnn := none
    returnAnn := [{ payload := .named "Poll" [("id", .prim "int")], codeLit := some 201 }] }

def c3Reg : Registry := apiDecorate (apiDecorate [] 21 c3SigA []) 22 c3SigB []

def c3R1 : Route := { handlerId := 21, method := "GET", path := "/a", handlerName := "ha" }

def c3R2 : Route := { handlerId := 22, method := "GET", path := "/b", handlerName := "hb" }

def c3E1 : Endpoint :=
  { desc := none, meths := [(none, eraseD (saveHandler c3SigA []))], summary := none }

def c3E2 : Endpoint :=
  { desc := none, meths := [(none, eraseD (saveHandler c3SigB []))], summary := none }

def c3Run : OpenApi × Except String Registry :=
  onStartup c3Reg (initOpenApi none) [c3R1, c3R2]

def c3RegOut : Registry :=
  match c3Run.2 with
  | .ok g => g
  | .error _ => []

theorem c3_shared_named_component_deduplicated_witness :
    ∃ defs ps,
      c3Run.1.components = some defs ∧
      (defs.map Prod.fst).count "Poll" = 1 ∧
      c3Run.1.paths = some ps ∧
      (∃ pd op reason, alookup ps "/a" = some pd ∧
        alookup pd.ops (normMeth none "GET") = some op ∧
        httpStatusPhrase 200 = some reason ∧
        alookup op.responses 200 = some (respObjOf reason (Schema.ref "Poll"))) ∧
      (∃ pd op reason, alookup ps "/b" = some pd ∧
        alookup pd.ops (normMeth none "GET") = some op ∧
        httpStatusPhrase 201 = some reason ∧
        alookup op.responses 201 = some (respObjOf reason (Schema.ref "Poll"))) :=
  c3_shared_named_component_deduplicated c3Reg (initOpenApi none) c3R1 c3R2
    c3E1 c3E2 none none (eraseD (saveHandler c3SigA [])) (eraseD (saveHandler c3SigB []))
    200 201 "Poll" [("id", .prim "int")] [("id", .prim "int")] c3Run.1 c3RegOut
    (by decide) rfl rfl rfl rfl rfl rfl (by decide) (by decide) rfl

end ApiSchema
